import Mathlib

/-!
Verification development for the go2go monomorphization engine
(repository tdakkota-legacy/go2go).

The development shallowly embeds the parts of the source the claims
are about:

* the type-substitution engine `instantiateType` / `doInstantiateType` /
  `instantiateTypeTuple` (translator file, `part_000`);
* the expression-type table `setType` (`part_000`);
* the function-instantiation cache `translateFunctionInstantiation` and
  the error plumbing of `rewriteFile` / `rewriteAST` (`part_001`);
* the declaration-cycle classifier `cycle`, the infinite-expansion check
  `validType`, the error reporter `cycleError` / `firstInSrc`, and the
  contract-argument checker `contractExpr` (`golib/types/decl.go`).

Go values of type `types.Type` are pointers into a heap; object identity
(pointer equality) is semantically relevant (the engine's "rebuild only if
changed" discipline and its caches rely on it).  We model the heap as an
explicit arena: a type value is an index (`Idx`) into a list of type nodes,
and allocating a rebuilt type appends a node.  Pointer equality is index
equality.  The semantic comparison `types.Identical` is supplied by an
external type-checker component, so it is a parameter `ident` of the
definitions; concrete witnesses instantiate it with index equality.
-/

/-- A Go type value: an index into the arena (models a `types.Type` pointer). -/
abbrev Idx := Nat

/-- One node of the type arena.  Mirrors the `types.Type` variants handled by
`doInstantiateType` in the source: Basic, Array, Slice, Struct, Pointer,
Tuple, Signature, Interface, Map, Chan, Named, TypeParam.  Struct fields and
interface/named methods keep only the components the engine reads (names,
types, tags); a struct's tag table is `Option` to model the nil/non-nil
distinction of the Go slice. -/
inductive TyNode where
  | basic (name : String)
  | array (elem : Idx) (length : Int)
  | slice (elem : Idx)
  | struct (fields : List (String × Idx)) (tags : Option (List String))
  | ptr (elem : Idx)
  | tuple (vars : List (String × Idx))
  | sig (recv : Option (String × Idx)) (params : Option Idx)
      (results : Option Idx) (variadic : Bool) (tparams : Option (List Idx))
  | iface (methods : List (String × Idx)) (embeddeds : List Idx)
  | mapT (key : Idx) (elem : Idx)
  | chan (dir : Nat) (elem : Idx)
  | named (objName : String) (targs : List Idx) (underlying : Idx)
      (methods : List (String × Idx))
  | tparam (id : Nat)
deriving DecidableEq

/-- `Struct.Tag(i)` of go/types: the i-th tag, or `""` when the tag table is
nil or too short. -/
def tagOf (tags : Option (List String)) (i : Nat) : String :=
  (tags.getD []).getD i ""

/-- Modelled from the spec: the `typeArgs` value handed to the substitution
engine (its defining file is not part of the provided sources).  Per the spec,
a Type Argument List is "an ordered sequence of concrete types, positionally
matched to a generic entity's parameters", and the engine's type-parameter
case "return[s] the corresponding concrete argument if the list supplies one".
`params` are the ids of the type parameters the list binds, positionally
matched with `types`. -/
structure TypeArgs where
  params : List Nat
  types : List Idx
deriving DecidableEq

/-- Modelled from the spec: `ta.typ(tp)` — the concrete argument supplied for
type parameter `tp`, if any. -/
def TypeArgs.typ (ta : TypeArgs) (id : Nat) : Option Idx :=
  (ta.params.indexOf? id).bind fun i => ta.types.get? i

/-- A record of the translator's `typeInstantiations` cache: the key type, the
argument types, and the resulting instantiated type
(struct `typeInstantiation` of the source, with its owning map key). -/
structure TypeInstRec where
  key : Idx
  types : List Idx
  typ : Idx
deriving DecidableEq

/-- The state of the type-substitution engine: the type arena (the Go heap of
`types.Type` values) and the `typeInstantiations` cache.  The Go map
`map[types.Type][]*typeInstantiation` is modelled as the list of records in
insertion order; the per-key slice is recovered by filtering. -/
structure TState where
  arena : List TyNode
  cache : List TypeInstRec
deriving DecidableEq

/-- Dereference a type value (reading the node a `types.Type` points at). -/
def getNode (st : TState) (i : Idx) : TyNode :=
  st.arena.getD i (.basic "unknown")

/-- Allocate a freshly built type value (a `types.NewXxx` call). -/
def allocNode (st : TState) (n : TyNode) : TState × Idx :=
  ({ st with arena := st.arena ++ [n] }, st.arena.length)

/-- `sameTypes` of the source: two type slices are the same when they have
equal length and are pairwise `types.Identical`.  `ident` is the external
semantic identity. -/
def sameTypes (ident : Idx → Idx → Bool) : List Idx → List Idx → Bool
  | [], [] => true
  | a :: as_, b :: bs => ident a b && sameTypes ident as_ bs
  | _, _ => false

/-- The records of the cache slice `t.typeInstantiations[typ]`, in append
order. -/
def cacheAt (st : TState) (i : Idx) : List TypeInstRec :=
  st.cache.filter fun r => r.key == i

/-- The cache scan of `instantiateType`: the first record for `typ` whose
argument types are `sameTypes` as the requested ones. -/
def lookupCache (ident : Idx → Idx → Bool) (st : TState) (ta : TypeArgs)
    (i : Idx) : Option Idx :=
  ((cacheAt st i).find? fun r => sameTypes ident ta.types r.types).map
    fun r => r.typ

/-- Result of a list-substitution loop over plain type lists. -/
structure ListRes where
  st : TState
  list : List Idx
  changed : Bool
deriving DecidableEq

/-- Result of a loop over (name, type) pairs (tuple variables, struct field
vectors, interface methods). -/
structure FieldsRes where
  st : TState
  fields : List (String × Idx)
  changed : Bool
deriving DecidableEq

/-- Result of the struct field loop: new fields, collected tag table,
`changed` and `hasTag` flags. -/
structure StructRes where
  st : TState
  fields : List (String × Idx)
  tags : List String
  changed : Bool
  hasTag : Bool
deriving DecidableEq

/-! The engine recursion: only the step `instantiateType → doInstantiateType`
consumes fuel; every other function is parameterized by the engine entry
point `inst` (standing for the method call `t.instantiateType(ta, ·)` at the
current fuel), so the fuel recursion below is plainly structural. -/

/-- The element loop of `instantiateTypeTuple`: substitute each variable's
type; the rebuilt variables (`types.NewVar`) keep the original names. -/
def instVarsD (inst : TState → TypeArgs → Idx → TState × Idx) :
    TState → TypeArgs → List (String × Idx) → FieldsRes
  | st, _, [] => ⟨st, [], false⟩
  | st, ta, v :: vs =>
    let p := inst st ta v.2
    let q := instVarsD inst p.1 ta vs
    ⟨q.st, (v.1, p.2) :: q.fields, (v.2 != p.2) || q.changed⟩

/-- `instantiateTypeTuple` of the source: a nil tuple stays nil; otherwise
substitute the element types and rebuild (`types.NewTuple` of `types.NewVar`s
with the original names) only if any element changed. -/
def instantiateTypeTupleD (inst : TState → TypeArgs → Idx → TState × Idx) :
    TState → TypeArgs → Option Idx → TState × Option Idx
  | st, _, none => (st, none)
  | st, ta, some tup =>
    match getNode st tup with
    | .tuple vars =>
      let r := instVarsD inst st ta vars
      if !r.changed then (r.st, some tup)
      else
        let a := allocNode r.st (.tuple r.fields)
        (a.1, some a.2)
    | _ => (st, some tup)

/-- The loops of `doInstantiateType` over plain type lists (interface
embeddeds, named-type type arguments): substitute each element, tracking
whether any element changed. -/
def instIdxListD (inst : TState → TypeArgs → Idx → TState × Idx) :
    TState → TypeArgs → List Idx → ListRes
  | st, _, [] => ⟨st, [], false⟩
  | st, ta, x :: xs =>
    let p := inst st ta x
    let q := instIdxListD inst p.1 ta xs
    ⟨q.st, p.2 :: q.list, (p.2 != x) || q.changed⟩

/-- The explicit-method loop of the Interface case: substitute each method's
signature; a method whose signature changed is replaced by a fresh
`types.NewFunc` with the same name, otherwise the original method value is
kept. -/
def instMethodsD (inst : TState → TypeArgs → Idx → TState × Idx) :
    TState → TypeArgs → List (String × Idx) → FieldsRes
  | st, _, [] => ⟨st, [], false⟩
  | st, ta, m :: ms =>
    let p := inst st ta m.2
    let q := instMethodsD inst p.1 ta ms
    ⟨q.st, (m.1, p.2) :: q.fields, (p.2 != m.2) || q.changed⟩

/-- The field loop of the Struct case: substitute each field's type, build
the new field list (`types.NewVar` with the original name), read the original
tag table positionally (`typ.Tag(i)`), and track the `changed` and `hasTag`
flags exactly as the source loop does. -/
def instStructFieldsD (inst : TState → TypeArgs → Idx → TState × Idx) :
    TState → TypeArgs → List (String × Idx) → (Nat → String) → Nat →
      StructRes
  | st, _, [], _, _ => ⟨st, [], [], false, false⟩
  | st, ta, fld :: rest, tagAt, i =>
    let p := inst st ta fld.2
    let tag := tagAt i
    let q := instStructFieldsD inst p.1 ta rest tagAt (i + 1)
    ⟨q.st, (fld.1, p.2) :: q.fields, tag :: q.tags,
      (fld.2 != p.2) || q.changed, (tag != "") || q.hasTag⟩

/-- `doInstantiateType` of the source, case by case.  Each `types.NewXxx`
call is an arena allocation; each pointer comparison (`elem == instElem`)
is an index comparison.  The Array case passes `elem` — not `instElem` —
to the rebuild, exactly as the source does. -/
def doInstantiateTypeD (inst : TState → TypeArgs → Idx → TState × Idx)
    (st : TState) (ta : TypeArgs) (typ : Idx) : TState × Idx :=
  match getNode st typ with
  | .basic _ => (st, typ)
  | .array elem len =>
    let p := inst st ta elem
    if elem = p.2 then (p.1, typ)
    else allocNode p.1 (.array elem len)
  | .slice elem =>
    let p := inst st ta elem
    if elem = p.2 then (p.1, typ)
    else allocNode p.1 (.slice p.2)
  | .struct fields tags =>
    let r := instStructFieldsD inst st ta fields (tagOf tags) 0
    if !r.changed then (r.st, typ)
    else
      allocNode r.st (.struct r.fields (if r.hasTag then some r.tags else none))
  | .ptr elem =>
    let p := inst st ta elem
    if elem = p.2 then (p.1, typ)
    else allocNode p.1 (.ptr p.2)
  | .tuple _ =>
    let p := instantiateTypeTupleD inst st ta (some typ)
    (p.1, p.2.getD typ)
  | .sig recv params results variadic tparams =>
    let p := instantiateTypeTupleD inst st ta params
    let q := instantiateTypeTupleD inst p.1 ta results
    if p.2 = params ∧ q.2 = results then (q.1, typ)
    else allocNode q.1 (.sig recv p.2 q.2 variadic tparams)
  | .iface methods embeddeds =>
    let rm := instMethodsD inst st ta methods
    let re := instIdxListD inst rm.st ta embeddeds
    if !(rm.changed || re.changed) then (re.st, typ)
    else allocNode re.st (.iface rm.fields re.list)
  | .mapT key elem =>
    let p := inst st ta key
    let q := inst p.1 ta elem
    if p.2 = key ∧ q.2 = elem then (q.1, typ)
    else allocNode q.1 (.mapT p.2 q.2)
  | .chan dir elem =>
    let p := inst st ta elem
    if p.2 = elem then (p.1, typ)
    else allocNode p.1 (.chan dir p.2)
  | .named objName targs underlying methods =>
    if targs.length > 0 then
      let rl := instIdxListD inst st ta targs
      if rl.changed then
        allocNode rl.st (.named objName rl.list underlying methods)
      else (rl.st, typ)
    else (st, typ)
  | .tparam id =>
    match ta.typ id with
    | some instType => (st, instType)
    | none => (st, typ)

/-- `instantiateType` of the source: consult the `typeInstantiations` cache,
otherwise do the work via `doInstantiateType` and append a new cache record.
Fuel replaces the call stack (the source recursion is bounded by the heap
being acyclic); fuel `0` returns the input unchanged. -/
def instantiateTypeF (ident : Idx → Idx → Bool) :
    Nat → TState → TypeArgs → Idx → TState × Idx
  | 0, st, _, typ => (st, typ)
  | f + 1, st, ta, typ =>
    match lookupCache ident st ta typ with
    | some r => (st, r)
    | none =>
      let p := doInstantiateTypeD (instantiateTypeF ident f) st ta typ
      ({ p.1 with cache := p.1.cache ++ [⟨typ, ta.types, p.2⟩] }, p.2)

/-- `doInstantiateType` at a given fuel (entered, as the source comment
requires, only from `instantiateType`). -/
def doInstantiateTypeF (ident : Idx → Idx → Bool) (f : Nat) :
    TState → TypeArgs → Idx → TState × Idx :=
  doInstantiateTypeD (instantiateTypeF ident f)

/-! ## Affectedness

A shape is *affected* by a type-argument list when it contains a
type-parameter reference the list supplies an argument for, along the exact
sub-shape positions the engine substitutes into (so e.g. a signature's
receiver and a named type's underlying shape are not inspected).  The
definitions mirror the engine's recursion pattern so the two line up step
for step. -/

/-- Affectedness of a list of shapes. -/
def affListD (aff : Idx → Bool) : List Idx → Bool
  | [] => false
  | x :: xs => aff x || affListD aff xs

/-- Affectedness of an optional tuple (a signature's parameter or result
list). -/
def affTupleD (aff : Idx → Bool) (ar : List TyNode) : Option Idx → Bool
  | none => false
  | some tup =>
    match ar.getD tup (.basic "unknown") with
    | .tuple vars => affListD aff (vars.map Prod.snd)
    | _ => false

/-- Affectedness seen at a `doInstantiateType` call, given the affectedness
`aff` of the recursive `instantiateType` entry. -/
def affDoD (aff : Idx → Bool) (ar : List TyNode) (ta : TypeArgs) (i : Idx) :
    Bool :=
  match ar.getD i (.basic "unknown") with
  | .basic _ => false
  | .array elem _ => aff elem
  | .slice elem => aff elem
  | .struct fields _ => affListD aff (fields.map Prod.snd)
  | .ptr elem => aff elem
  | .tuple vars => affListD aff (vars.map Prod.snd)
  | .sig _ params results _ _ => affTupleD aff ar params || affTupleD aff ar results
  | .iface methods embeddeds =>
    affListD aff (methods.map Prod.snd) || affListD aff embeddeds
  | .mapT key elem => aff key || aff elem
  | .chan _ elem => aff elem
  | .named _ targs _ _ => affListD aff targs
  | .tparam id => (ta.typ id).isSome

/-- Affectedness seen at an `instantiateType` call.  At fuel `0` the engine
does nothing, so every shape is conservatively declared affected (making
claims about exhausted fuel vacuous). -/
def affInstF : Nat → List TyNode → TypeArgs → Idx → Bool
  | 0, _, _, _ => true
  | f + 1, ar, ta, i => affDoD (affInstF f ar ta) ar ta i

/-! ## C3: identity preservation on unaffected shapes

The no-op path of the engine.  Because the public entry `instantiateType`
first consults the `typeInstantiations` cache — whose records are keyed by
the shape and compared only by the `Identical`-ity of the stored *argument
types*, not by which type parameters those arguments were bound to — a
record left by an earlier substitution under a *different* parameter set
can satisfy the scan for an argument list that does not affect the shape at
all, and then the cached (substituted) value is returned instead of the
identical input.  `substitution_unaffected_not_identity` exhibits this with
two engine runs from an empty cache.  Under the extra hypothesis `CacheOK`
(every cache record whose stored argument types match the requested list
and whose key shape is unaffected maps the key to itself — true in
particular of the empty cache, and preserved by unaffected runs), the
identity property holds for every shape kind
(`substitution_identity_on_unaffected`).
-/

/-- The cache hypothesis: any record whose stored argument types are
`Identical` to the requested list and whose key shape is unaffected by the
requested list records the key shape itself as its result. -/
def CacheOK (ident : Idx → Idx → Bool) (st : TState) (ta : TypeArgs) : Prop :=
  ∀ rec ∈ st.cache, sameTypes ident ta.types rec.types = true →
    (∃ f, affInstF f st.arena ta rec.key = false) → rec.typ = rec.key

/-- The inductive interface of the engine entry point on the no-op path:
on an unaffected shape it returns the shape itself, leaves the arena
untouched, and preserves `CacheOK`. -/
def NoopAt (ident : Idx → Idx → Bool) (ta : TypeArgs) (ar : List TyNode)
    (aff : Idx → Bool) (inst : TState → TypeArgs → Idx → TState × Idx) : Prop :=
  ∀ st i, st.arena = ar → CacheOK ident st ta → aff i = false →
    (inst st ta i).2 = i ∧ (inst st ta i).1.arena = ar ∧
    CacheOK ident (inst st ta i).1 ta

/-! ## C10: `setType` never changes a recorded type

AST expressions are modelled by their identities (the Go map keys are
`ast.Expr` pointer values), types by arena indices, and the two tables
`t.importer.info.Types` and `t.types` by association lists.  A Go `panic` is
modelled as `none`. -/

/-- The two expression-type tables the translator consults: the importer's
`info.Types` table and the translator's own `types` table. -/
structure TypeTables where
  infoTypes : List (Nat × Idx)
  types : List (Nat × Idx)
deriving DecidableEq

/-- `setType` of the source: if the expression already has a recorded type in
either table, a `types.Identical` new type is a no-op and a different one
panics (`none`); otherwise the type is recorded in the translator's own
table. -/
def setType (ident : Idx → Idx → Bool) (tt : TypeTables) (e : Nat)
    (nt : Idx) : Option TypeTables :=
  match tt.infoTypes.lookup e with
  | some ot => if ident ot nt then some tt else none
  | none =>
    match tt.types.lookup e with
    | some ot => if ident ot nt then some tt else none
    | none => some { tt with types := tt.types ++ [(e, nt)] }

/-! ## The translator's AST and the function-instantiation cache (C2, C9)

The `golib/ast` node taxonomy, restricted to the components the translator
reads and rewrites.  Go's nil node pointers are `Option`; source positions,
comments and token metadata are dropped.  `GenDecl.tok` is the token name
("import", "const", "type", "var", "ident"). -/

mutual

inductive GExpr where
  | ident (name : String)
  | ellipsis (elt : Option GExpr)
  | basicLit (value : String)
  | funcLit (tparams : Option GFieldList) (params : Option GFieldList)
      (results : Option GFieldList) (body : List GStmt)
  | compositeLit (typ : Option GExpr) (elts : List GExpr)
  | paren (x : GExpr)
  | selector (x : GExpr) (sel : String)
  | index (x : GExpr) (idx : Option GExpr)
  | sliceE (x : Option GExpr) (low : Option GExpr) (high : Option GExpr)
      (max : Option GExpr)
  | typeAssert (x : Option GExpr) (typ : Option GExpr)
  | call (fn : GExpr) (args : List GExpr)
  | star (x : Option GExpr)
  | unary (x : Option GExpr)
  | binary (x : Option GExpr) (y : Option GExpr)
  | keyValue (key : Option GExpr) (value : Option GExpr)
  | arrayType (elt : Option GExpr)
  | structType (fields : Option GFieldList)
  | funcType (tparams : Option GFieldList) (params : Option GFieldList)
      (results : Option GFieldList)
  | ifaceType (methods : Option GFieldList)
  | mapType (key : Option GExpr) (value : Option GExpr)
  | chanType (value : Option GExpr)

inductive GStmt where
  | declStmt (d : GDecl)
  | emptyStmt
  | labeled (s : Option GStmt)
  | exprStmt (x : Option GExpr)
  | send (channel : Option GExpr) (value : Option GExpr)
  | incDec (x : Option GExpr)
  | assign (lhs : List GExpr) (rhs : List GExpr)
  | goStmt (call : GExpr)
  | deferStmt (call : GExpr)
  | returnStmt (results : List GExpr)
  | branch
  | block (body : List GStmt)
  | ifStmt (init : Option GStmt) (cond : Option GExpr) (body : List GStmt)
      (els : Option GStmt)
  | caseClause (exprs : List GExpr) (body : List GStmt)
  | switchStmt (init : Option GStmt) (tag : Option GExpr) (body : List GStmt)
  | typeSwitchStmt (init : Option GStmt) (assignS : Option GStmt)
      (body : List GStmt)
  | commClause (comm : Option GStmt) (body : List GStmt)
  | selectStmt (body : List GStmt)
  | forStmt (init : Option GStmt) (cond : Option GExpr) (post : Option GStmt)
      (body : List GStmt)
  | rangeStmt (key : Option GExpr) (value : Option GExpr) (x : Option GExpr)
      (body : List GStmt)

inductive GField where
  | mk (names : List String) (typ : Option GExpr)

inductive GFieldList where
  | mk (list : List GField)

inductive GSpec where
  | typeSpec (name : String) (tparams : Option GFieldList) (typ : Option GExpr)
  | valueSpec (names : List String) (typ : Option GExpr) (values : List GExpr)
  | importSpec (name : Option String) (path : String)

inductive GDecl where
  | funcDecl (recv : Option GFieldList) (name : String)
      (tparams : Option GFieldList) (params : Option GFieldList)
      (results : Option GFieldList) (body : List GStmt)
  | genDecl (tok : String) (specs : List GSpec)
  | badDecl

end

/-- An `instantiation` record of the source: the type-argument list and the
identifier of the synthesized declaration a call site is rewritten to. -/
structure FuncInstRec where
  types : List Idx
  decl : String
deriving DecidableEq

/-- A `typeInstantiation` record as the translator file uses it: the
type-argument list, the identifier of the synthesized type declaration, and
the instantiated type value. -/
structure TypeInstDeclRec where
  types : List Idx
  decl : String
  typ : Idx
deriving DecidableEq

/-- The translator state the instantiation paths touch: the function
`instantiations` cache (a map from qualified-identifier key to records in
append order), the type `typeInstantiations` cache (keyed by the named
type's identity), the `newDecls` work queue, and the sticky error `err`. -/
structure TransState where
  instantiations : List (String × List FuncInstRec)
  typeInsts : List (Nat × List TypeInstDeclRec)
  newDecls : List GDecl
  err : Option String

/-- Assignment into a Go map modelled as an association list. -/
def assocSet {α β : Type} [DecidableEq α] :
    List (α × β) → α → β → List (α × β)
  | [], k, v => [(k, v)]
  | (k', v') :: rest, k, v =>
    if k' = k then (k, v) :: rest else (k', v') :: assocSet rest k v

/-- `t.instantiations[key]` (a missing key is the empty slice). -/
def funcInstsAt (st : TransState) (key : String) : List FuncInstRec :=
  (st.instantiations.lookup key).getD []

/-- The call-site rewrite at the end of `translateFunctionInstantiation`:
with AST type arguments present the whole call is replaced by the
instantiated identifier, otherwise a copy of the call with the instantiated
identifier as its function. -/
def instRewrite (typeArgs : Bool) (d : String) (args : List GExpr) : GExpr :=
  if typeArgs then .ident d else .call (.ident d) args

/-- `translateFunctionInstantiation` of the source.  The qualified
identifier `key` and the type lists are supplied by `instantiatedIdent` /
`instantiationTypes` (resolved from the external type information); the
synthesis step `instantiateFunction` is not part of the provided sources and
is passed in as `instFn` (per the spec it returns a fresh globally-unique
identifier, or fails).  On a cache hit the first record in append order
whose types are `sameTypes` wins; on a miss the source appends to the
*snapshot* of the per-key slice read before synthesis.  On failure the
error is recorded in `err` and the call is left unrewritten. -/
def translateFunctionInstantiationF (ident : Idx → Idx → Bool)
    (instFn : TransState → String → List Idx → Except String (String × TransState))
    (st : TransState) (fn : GExpr) (args : List GExpr) (key : String)
    (typeList : List Idx) (typeArgs : Bool) : TransState × GExpr :=
  let insts := funcInstsAt st key
  match insts.find? fun inst => sameTypes ident typeList inst.types with
  | some inst => (st, instRewrite typeArgs inst.decl args)
  | none =>
    match instFn st key typeList with
    | .error e => ({ st with err := some e }, .call fn args)
    | .ok (d, st') =>
      ({ st' with
          instantiations := assocSet st'.instantiations key (insts ++ [⟨typeList, d⟩]) },
        instRewrite typeArgs d args)

/-- The number of records for `key` whose types match `tl`. -/
def matchCount (ident : Idx → Idx → Bool) (st : TransState) (key : String)
    (tl : List Idx) : Nat :=
  ((funcInstsAt st key).filter fun rec => sameTypes ident tl rec.types).length

/-- The idempotence property of the function-instantiation cache for a pair
of requests on `key` with argument lists `tl1` and then `tl2`: some single
synthesized declaration identifier serves both call-site rewrites, the
second request leaves the state untouched, and if no record matched `tl1`
beforehand exactly one does afterwards. -/
def FuncInstIdem (ident : Idx → Idx → Bool)
    (instFn : TransState → String → List Idx → Except String (String × TransState))
    (st : TransState) (fn fn2 : GExpr) (args args2 : List GExpr)
    (key : String) (tl1 tl2 : List Idx) (tA1 tA2 : Bool) : Prop :=
  ∃ d : String,
    (translateFunctionInstantiationF ident instFn st fn args key tl1 tA1).2 =
      instRewrite tA1 d args ∧
    (translateFunctionInstantiationF ident instFn
        (translateFunctionInstantiationF ident instFn st fn args key tl1 tA1).1
        fn2 args2 key tl2 tA2).2 = instRewrite tA2 d args2 ∧
    (translateFunctionInstantiationF ident instFn
        (translateFunctionInstantiationF ident instFn st fn args key tl1 tA1).1
        fn2 args2 key tl2 tA2).1 =
      (translateFunctionInstantiationF ident instFn st fn args key tl1 tA1).1 ∧
    (matchCount ident st key tl1 = 0 →
      matchCount ident
        (translateFunctionInstantiationF ident instFn st fn args key tl1 tA1).1
        key tl1 = 1)

/-! ## The translation pipeline and error plumbing (C9)

`translateExpr` / `translateStmt` and the declaration-level drivers, with
the file-level `rewriteAST` / `rewriteFile` sequencing.  As with the
substitution engine, only the recursion `translateExpr/translateStmt →
sub-node` consumes fuel; the per-node bodies are parameterized by the
recursive entry points, keeping the fuel recursion structural.  The
classification of a call expression (the `lookupType(e.Fun)` tests together
with `instantiatedIdent` / `instantiationTypes`, which read the external
type information) is the parameter `callKind`; the synthesis steps
`instantiateFunction` / `instantiateTypeDecl` are not part of the provided
sources and are the parameters `instFn` / `instTypeFn`.  The import
bookkeeping of `rewriteAST` (transitive-import merging and the importable
name) is excluded as an external collaborator; `rewriteFile`'s file
creation happens strictly after the `rewriteAST` error check, which the
model reflects by producing no output file on error. -/

/-- How the translator treats a call expression, as decided by the external
type information: a generic function call, a generic type instantiation, or
a plain call. -/
inductive CallKind where
  | plain
  | funcInst (key : String) (typeList : List Idx) (typeArgs : Bool)
  | typeInst (key : Nat) (typeList : List Idx)

/-- `translateTypeInstantiation` of the source: scan the per-type records,
reuse the synthesized type identifier on a hit; otherwise synthesize via
`instantiateTypeDecl` (`instTypeFn`), recording the error and leaving the
call unrewritten on failure, appending to the snapshot of the record slice
on success. -/
def translateTypeInstantiationF (ident : Idx → Idx → Bool)
    (instTypeFn : TransState → Nat → List Idx →
      Except String (String × Idx × TransState))
    (st : TransState) (fn : GExpr) (args : List GExpr) (key : Nat)
    (typeList : List Idx) : TransState × GExpr :=
  let insts := (st.typeInsts.lookup key).getD []
  match insts.find? fun inst => sameTypes ident typeList inst.types with
  | some inst => (st, .ident inst.decl)
  | none =>
    match instTypeFn st key typeList with
    | .error e => ({ st with err := some e }, .call fn args)
    | .ok (d, ty, st') =>
      ({ st' with typeInsts := assocSet st'.typeInsts key (insts ++ [⟨typeList, d, ty⟩]) },
        .ident d)

/-- `t.typeInstantiations[typ]` (a missing key is the empty slice). -/
def typeInstsAt (st : TransState) (key : Nat) : List TypeInstDeclRec :=
  (st.typeInsts.lookup key).getD []

/-- The number of type-instantiation records for `key` whose types match
`tl`. -/
def typeMatchCount (ident : Idx → Idx → Bool) (st : TransState) (key : Nat)
    (tl : List Idx) : Nat :=
  ((typeInstsAt st key).filter fun rec => sameTypes ident tl rec.types).length

/-- The idempotence property of the type-instantiation cache for a pair of
requests on the named type `key` with argument lists `tl1` and then `tl2`:
some single synthesized type-declaration identifier replaces both call
sites, the second request leaves the state untouched, and if no record
matched `tl1` beforehand exactly one does afterwards. -/
def TypeInstIdem (ident : Idx → Idx → Bool)
    (instTypeFn : TransState → Nat → List Idx →
      Except String (String × Idx × TransState))
    (st : TransState) (fn fn2 : GExpr) (args args2 : List GExpr)
    (key : Nat) (tl1 tl2 : List Idx) : Prop :=
  ∃ d : String,
    (translateTypeInstantiationF ident instTypeFn st fn args key tl1).2 =
      .ident d ∧
    (translateTypeInstantiationF ident instTypeFn
        (translateTypeInstantiationF ident instTypeFn st fn args key tl1).1
        fn2 args2 key tl2).2 = .ident d ∧
    (translateTypeInstantiationF ident instTypeFn
        (translateTypeInstantiationF ident instTypeFn st fn args key tl1).1
        fn2 args2 key tl2).1 =
      (translateTypeInstantiationF ident instTypeFn st fn args key tl1).1 ∧
    (typeMatchCount ident st key tl1 = 0 →
      typeMatchCount ident
        (translateTypeInstantiationF ident instTypeFn st fn args key tl1).1
        key tl1 = 1)


/-- `translateExpr` through a possibly-nil node pointer. -/
def translateExprOptP (texpr : TransState → GExpr → TransState × GExpr)
    (st : TransState) : Option GExpr → TransState × Option GExpr
  | none => (st, none)
  | some e =>
    let p := texpr st e
    (p.1, some p.2)

/-- `translateExprList` of the source. -/
def translateExprListP (texpr : TransState → GExpr → TransState × GExpr)
    (st : TransState) : List GExpr → TransState × List GExpr
  | [] => (st, [])
  | e :: es =>
    let p := texpr st e
    let q := translateExprListP texpr p.1 es
    (q.1, p.2 :: q.2)

/-- Translating the collected interface type-list entries. -/
def translateExprOptListP (texpr : TransState → GExpr → TransState × GExpr)
    (st : TransState) : List (Option GExpr) → TransState × List (Option GExpr)
  | [] => (st, [])
  | e :: es =>
    let p := translateExprOptP texpr st e
    let q := translateExprOptListP texpr p.1 es
    (q.1, p.2 :: q.2)

/-- `translateField` of the source. -/
def translateFieldP (texpr : TransState → GExpr → TransState × GExpr)
    (st : TransState) : GField → TransState × GField
  | .mk names typ =>
    let p := translateExprOptP texpr st typ
    (p.1, .mk names p.2)

/-- The loop of `translateFieldList`. -/
def translateFieldsP (texpr : TransState → GExpr → TransState × GExpr)
    (st : TransState) : List GField → TransState × List GField
  | [] => (st, [])
  | fd :: fds =>
    let p := translateFieldP texpr st fd
    let q := translateFieldsP texpr p.1 fds
    (q.1, p.2 :: q.2)

/-- `translateFieldList` of the source (nil field list untouched). -/
def translateFieldListP (texpr : TransState → GExpr → TransState × GExpr)
    (st : TransState) : Option GFieldList → TransState × Option GFieldList
  | none => (st, none)
  | some (.mk fl) =>
    let p := translateFieldsP texpr st fl
    (p.1, some (.mk p.2))

/-- Whether an interface field is a type-list entry (first name "type"). -/
def isTypeListField : GField → Bool
  | .mk names _ => names.head? == some "type"

/-- `splitFieldList` of the source: separate method fields from type-list
entries. -/
def splitFieldListP : Option GFieldList → List GField × List (Option GExpr)
  | none => ([], [])
  | some (.mk fl) =>
    (fl.filter fun fd => !isTypeListField fd,
      (fl.filter fun fd => isTypeListField fd).map fun fd =>
        match fd with | .mk _ typ => typ)

/-- Reassemble an interface field list after translation.  The source
mutates the shared field/expression nodes in place, so the original list
order is preserved; functionally this is a stitch of the two translated
sequences back into the original interleaving. -/
def stitchFieldList : List GField → List GField → List (Option GExpr) →
    List GField
  | [], _, _ => []
  | fd :: rest, ms, ts =>
    if isTypeListField fd then
      (match fd with
        | .mk names _ => GField.mk names (ts.headD none)) ::
        stitchFieldList rest ms ts.tail
    else
      ms.headD fd :: stitchFieldList rest ms.tail ts

/-- `translateStmt` through a possibly-nil statement pointer. -/
def translateStmtOptP (tstmt : TransState → GStmt → TransState × GStmt)
    (st : TransState) : Option GStmt → TransState × Option GStmt
  | none => (st, none)
  | some s =>
    let p := tstmt st s
    (p.1, some p.2)

/-- `translateStmtList` / `translateBlockStmt` of the source. -/
def translateStmtListP (tstmt : TransState → GStmt → TransState × GStmt)
    (st : TransState) : List GStmt → TransState × List GStmt
  | [] => (st, [])
  | s :: ss =>
    let p := tstmt st s
    let q := translateStmtListP tstmt p.1 ss
    (q.1, p.2 :: q.2)

/-- `translateTypeSpec` of the source (the parameterized-type panic is
unreachable: callers filter those specs out). -/
def translateTypeSpecP (texpr : TransState → GExpr → TransState × GExpr)
    (st : TransState) : GSpec → TransState × GSpec
  | .typeSpec name tparams typ =>
    let p := translateExprOptP texpr st typ
    (p.1, .typeSpec name tparams p.2)
  | s => (st, s)

/-- `translateValueSpec` of the source. -/
def translateValueSpecP (texpr : TransState → GExpr → TransState × GExpr)
    (st : TransState) : GSpec → TransState × GSpec
  | .valueSpec names typ values =>
    let p := translateExprOptP texpr st typ
    let q := translateExprListP texpr p.1 values
    (q.1, .valueSpec names p.2 q.2)
  | s => (st, s)

/-- A loop of one of the spec translators over a spec list. -/
def translateSpecsP (tspec : TransState → GSpec → TransState × GSpec)
    (st : TransState) : List GSpec → TransState × List GSpec
  | [] => (st, [])
  | s :: ss =>
    let p := tspec st s
    let q := translateSpecsP tspec p.1 ss
    (q.1, p.2 :: q.2)

/-- The body of `translateExpr`, given the recursive entry points `prev`.
The first conditional is the source's early return on a recorded error. -/
def exprBody (ident : Idx → Idx → Bool)
    (instFn : TransState → String → List Idx → Except String (String × TransState))
    (instTypeFn : TransState → Nat → List Idx →
      Except String (String × Idx × TransState))
    (callKind : GExpr → CallKind)
    (prev : (TransState → GExpr → TransState × GExpr) ×
      (TransState → GStmt → TransState × GStmt))
    (st : TransState) (e : GExpr) : TransState × GExpr :=
  if st.err.isSome then (st, e) else
  match e with
  | .ident _ => (st, e)
  | .ellipsis elt =>
    let p := translateExprOptP prev.1 st elt
    (p.1, .ellipsis p.2)
  | .basicLit _ => (st, e)
  | .funcLit tparams params results body =>
    let a := translateFieldListP prev.1 st tparams
    let b := translateFieldListP prev.1 a.1 params
    let c := translateFieldListP prev.1 b.1 results
    let d := translateStmtListP prev.2 c.1 body
    (d.1, .funcLit a.2 b.2 c.2 d.2)
  | .compositeLit typ elts =>
    let a := translateExprOptP prev.1 st typ
    let b := translateExprListP prev.1 a.1 elts
    (b.1, .compositeLit a.2 b.2)
  | .paren x =>
    let p := prev.1 st x
    (p.1, .paren p.2)
  | .selector x sel =>
    let p := prev.1 st x
    (p.1, .selector p.2 sel)
  | .index x idx =>
    let a := prev.1 st x
    let b := translateExprOptP prev.1 a.1 idx
    (b.1, .index a.2 b.2)
  | .sliceE x low high maxE =>
    let a := translateExprOptP prev.1 st x
    let b := translateExprOptP prev.1 a.1 low
    let c := translateExprOptP prev.1 b.1 high
    let d := translateExprOptP prev.1 c.1 maxE
    (d.1, .sliceE a.2 b.2 c.2 d.2)
  | .typeAssert x typ =>
    let a := translateExprOptP prev.1 st x
    let b := translateExprOptP prev.1 a.1 typ
    (b.1, .typeAssert a.2 b.2)
  | .call fn args =>
    let a := translateExprListP prev.1 st args
    match callKind (.call fn args) with
    | .funcInst key typeList typeArgs =>
      let r := translateFunctionInstantiationF ident instFn a.1 fn a.2 key
        typeList typeArgs
      let z := prev.1 r.1 fn
      (z.1, r.2)
    | .typeInst key typeList =>
      let r := translateTypeInstantiationF ident instTypeFn a.1 fn a.2 key
        typeList
      let z := prev.1 r.1 fn
      (z.1, r.2)
    | .plain =>
      let z := prev.1 a.1 fn
      (z.1, .call z.2 a.2)
  | .star x =>
    let p := translateExprOptP prev.1 st x
    (p.1, .star p.2)
  | .unary x =>
    let p := translateExprOptP prev.1 st x
    (p.1, .unary p.2)
  | .binary x y =>
    let a := translateExprOptP prev.1 st x
    let b := translateExprOptP prev.1 a.1 y
    (b.1, .binary a.2 b.2)
  | .keyValue k v =>
    let a := translateExprOptP prev.1 st k
    let b := translateExprOptP prev.1 a.1 v
    (b.1, .keyValue a.2 b.2)
  | .arrayType elt =>
    let p := translateExprOptP prev.1 st elt
    (p.1, .arrayType p.2)
  | .structType fields =>
    let p := translateFieldListP prev.1 st fields
    (p.1, .structType p.2)
  | .funcType tparams params results =>
    let a := translateFieldListP prev.1 st tparams
    let b := translateFieldListP prev.1 a.1 params
    let c := translateFieldListP prev.1 b.1 results
    (c.1, .funcType a.2 b.2 c.2)
  | .ifaceType methods =>
    let sp := splitFieldListP methods
    let a := translateFieldsP prev.1 st sp.1
    let b := translateExprOptListP prev.1 a.1 sp.2
    (b.1,
      .ifaceType (match methods with
        | none => none
        | some (.mk fl) => some (.mk (stitchFieldList fl a.2 b.2))))
  | .mapType k v =>
    let a := translateExprOptP prev.1 st k
    let b := translateExprOptP prev.1 a.1 v
    (b.1, .mapType a.2 b.2)
  | .chanType v =>
    let p := translateExprOptP prev.1 st v
    (p.1, .chanType p.2)

/-- The body of `translateStmt`, given the recursive entry points.  The
unknown-token and non-GenDecl panics of the source are unreachable for
well-formed inputs and modelled as identity. -/
def stmtBody (prev : (TransState → GExpr → TransState × GExpr) ×
      (TransState → GStmt → TransState × GStmt))
    (st : TransState) (s : GStmt) : TransState × GStmt :=
  if st.err.isSome then (st, s) else
  match s with
  | .declStmt (.genDecl tok specs) =>
    if tok = "type" then
      let p := translateSpecsP (translateTypeSpecP prev.1) st specs
      (p.1, .declStmt (.genDecl tok p.2))
    else if tok = "const" ∨ tok = "var" then
      let p := translateSpecsP (translateValueSpecP prev.1) st specs
      (p.1, .declStmt (.genDecl tok p.2))
    else (st, s)
  | .declStmt _ => (st, s)
  | .emptyStmt => (st, s)
  | .labeled inner =>
    let p := translateStmtOptP prev.2 st inner
    (p.1, .labeled p.2)
  | .exprStmt x =>
    let p := translateExprOptP prev.1 st x
    (p.1, .exprStmt p.2)
  | .send channel value =>
    let a := translateExprOptP prev.1 st channel
    let b := translateExprOptP prev.1 a.1 value
    (b.1, .send a.2 b.2)
  | .incDec x =>
    let p := translateExprOptP prev.1 st x
    (p.1, .incDec p.2)
  | .assign lhs rhs =>
    let a := translateExprListP prev.1 st lhs
    let b := translateExprListP prev.1 a.1 rhs
    (b.1, .assign a.2 b.2)
  | .goStmt call =>
    let p := prev.1 st call
    (p.1, .goStmt p.2)
  | .deferStmt call =>
    let p := prev.1 st call
    (p.1, .deferStmt p.2)
  | .returnStmt results =>
    let p := translateExprListP prev.1 st results
    (p.1, .returnStmt p.2)
  | .branch => (st, s)
  | .block body =>
    let p := translateStmtListP prev.2 st body
    (p.1, .block p.2)
  | .ifStmt init cond body els =>
    let a := translateStmtOptP prev.2 st init
    let b := translateExprOptP prev.1 a.1 cond
    let c := translateStmtListP prev.2 b.1 body
    let d := translateStmtOptP prev.2 c.1 els
    (d.1, .ifStmt a.2 b.2 c.2 d.2)
  | .caseClause exprs body =>
    let a := translateExprListP prev.1 st exprs
    let b := translateStmtListP prev.2 a.1 body
    (b.1, .caseClause a.2 b.2)
  | .switchStmt init tag body =>
    let a := translateStmtOptP prev.2 st init
    let b := translateExprOptP prev.1 a.1 tag
    let c := translateStmtListP prev.2 b.1 body
    (c.1, .switchStmt a.2 b.2 c.2)
  | .typeSwitchStmt init assignS body =>
    let a := translateStmtOptP prev.2 st init
    let b := translateStmtOptP prev.2 a.1 assignS
    let c := translateStmtListP prev.2 b.1 body
    (c.1, .typeSwitchStmt a.2 b.2 c.2)
  | .commClause comm body =>
    let a := translateStmtOptP prev.2 st comm
    let b := translateStmtListP prev.2 a.1 body
    (b.1, .commClause a.2 b.2)
  | .selectStmt body =>
    let p := translateStmtListP prev.2 st body
    (p.1, .selectStmt p.2)
  | .forStmt init cond post body =>
    let a := translateStmtOptP prev.2 st init
    let b := translateExprOptP prev.1 a.1 cond
    let c := translateStmtOptP prev.2 b.1 post
    let d := translateStmtListP prev.2 c.1 body
    (d.1, .forStmt a.2 b.2 c.2 d.2)
  | .rangeStmt key value x body =>
    let a := translateExprOptP prev.1 st key
    let b := translateExprOptP prev.1 a.1 value
    let c := translateExprOptP prev.1 b.1 x
    let d := translateStmtListP prev.2 c.1 body
    (d.1, .rangeStmt a.2 b.2 c.2 d.2)

/-- The two mutually recursive translators, by fuel. -/
def translateAstF (ident : Idx → Idx → Bool)
    (instFn : TransState → String → List Idx → Except String (String × TransState))
    (instTypeFn : TransState → Nat → List Idx →
      Except String (String × Idx × TransState))
    (callKind : GExpr → CallKind) :
    Nat → (TransState → GExpr → TransState × GExpr) ×
      (TransState → GStmt → TransState × GStmt)
  | 0 => (fun st e => (st, e), fun st s => (st, s))
  | f + 1 =>
    let prev := translateAstF ident instFn instTypeFn callKind f
    (fun st e => exprBody ident instFn instTypeFn callKind prev st e,
     fun st s => stmtBody prev st s)

/-- `translateExpr` of the source, at a given fuel. -/
def translateExprF (ident : Idx → Idx → Bool)
    (instFn : TransState → String → List Idx → Except String (String × TransState))
    (instTypeFn : TransState → Nat → List Idx →
      Except String (String × Idx × TransState))
    (callKind : GExpr → CallKind) (f : Nat) :
    TransState → GExpr → TransState × GExpr :=
  (translateAstF ident instFn instTypeFn callKind f).1

/-- `translateStmt` of the source, at a given fuel. -/
def translateStmtF (ident : Idx → Idx → Bool)
    (instFn : TransState → String → List Idx → Except String (String × TransState))
    (instTypeFn : TransState → Nat → List Idx →
      Except String (String × Idx × TransState))
    (callKind : GExpr → CallKind) (f : Nat) :
    TransState → GStmt → TransState × GStmt :=
  (translateAstF ident instFn instTypeFn callKind f).2

/-- `translateFuncDecl` of the source (its own `t.err` guard first). -/
def translateFuncDeclF (ident : Idx → Idx → Bool)
    (instFn : TransState → String → List Idx → Except String (String × TransState))
    (instTypeFn : TransState → Nat → List Idx →
      Except String (String × Idx × TransState))
    (callKind : GExpr → CallKind) (f : Nat)
    (st : TransState) (d : GDecl) : TransState × GDecl :=
  if st.err.isSome then (st, d) else
  match d with
  | .funcDecl recv name tparams params results body =>
    let a := translateFieldListP (translateExprF ident instFn instTypeFn callKind f) st recv
    let b := translateFieldListP (translateExprF ident instFn instTypeFn callKind f) a.1 params
    let c := translateFieldListP (translateExprF ident instFn instTypeFn callKind f) b.1 results
    let e := translateStmtListP (translateStmtF ident instFn instTypeFn callKind f) c.1 body
    (e.1, .funcDecl a.2 name tparams b.2 c.2 e.2)
  | _ => (st, d)

/-- `isParameterizedTypeDecl` of the source. -/
def isParameterizedTypeDeclF : GSpec → Bool
  | .typeSpec _ tparams _ => tparams.isSome
  | _ => false

/-- `isParameterizedFuncDecl` of the source; the receiver check reads the
external type information (`recvHasTParams`). -/
def isParameterizedFuncDeclF (recvHasTParams : GDecl → Bool) : GDecl → Bool
  | d@(.funcDecl _ _ tparams _ _ _) => tparams.isSome || recvHasTParams d
  | _ => false

/-- The TYPE-spec loop of `translate`: parameterized specs are dropped,
the rest are translated. -/
def translateTypeSpecsFilterP (texpr : TransState → GExpr → TransState × GExpr)
    (st : TransState) : List GSpec → TransState × List GSpec
  | [] => (st, [])
  | s :: ss =>
    if isParameterizedTypeDeclF s then
      translateTypeSpecsFilterP texpr st ss
    else
      let p := translateTypeSpecP texpr st s
      let q := translateTypeSpecsFilterP texpr p.1 ss
      (q.1, p.2 :: q.2)

/-- One pass of `translate` over a declaration list: parameterized
functions and types and contract declarations are dropped, everything else
is translated and kept. -/
def translateDeclsF (ident : Idx → Idx → Bool)
    (instFn : TransState → String → List Idx → Except String (String × TransState))
    (instTypeFn : TransState → Nat → List Idx →
      Except String (String × Idx × TransState))
    (callKind : GExpr → CallKind) (recvHasTParams : GDecl → Bool) (f : Nat)
    (st : TransState) : List GDecl → TransState × List GDecl
  | [] => (st, [])
  | d :: rest =>
    match d with
    | .funcDecl _ _ _ _ _ _ =>
      if isParameterizedFuncDeclF recvHasTParams d then
        translateDeclsF ident instFn instTypeFn callKind recvHasTParams f st rest
      else
        let p := translateFuncDeclF ident instFn instTypeFn callKind f st d
        let q := translateDeclsF ident instFn instTypeFn callKind recvHasTParams f p.1 rest
        (q.1, p.2 :: q.2)
    | .genDecl tok specs =>
      if tok = "type" then
        let p := translateTypeSpecsFilterP
          (translateExprF ident instFn instTypeFn callKind f) st specs
        let q := translateDeclsF ident instFn instTypeFn callKind recvHasTParams f p.1 rest
        if p.2.isEmpty then (q.1, q.2)
        else (q.1, .genDecl tok p.2 :: q.2)
      else if tok = "const" ∨ tok = "var" then
        let p := translateSpecsP
          (translateValueSpecP (translateExprF ident instFn instTypeFn callKind f)) st specs
        let q := translateDeclsF ident instFn instTypeFn callKind recvHasTParams f p.1 rest
        (q.1, .genDecl tok p.2 :: q.2)
      else if tok = "ident" then
        translateDeclsF ident instFn instTypeFn callKind recvHasTParams f st rest
      else
        let q := translateDeclsF ident instFn instTypeFn callKind recvHasTParams f st rest
        (q.1, d :: q.2)
    | _ =>
      let q := translateDeclsF ident instFn instTypeFn callKind recvHasTParams f st rest
      (q.1, d :: q.2)

/-- The work-queue loop of `translate`: process the pending declarations,
then drain the `newDecls` the pass enqueued, to a fixpoint (bounded by
`qf`). -/
def translateLoopF (ident : Idx → Idx → Bool)
    (instFn : TransState → String → List Idx → Except String (String × TransState))
    (instTypeFn : TransState → Nat → List Idx →
      Except String (String × Idx × TransState))
    (callKind : GExpr → CallKind) (recvHasTParams : GDecl → Bool) (f : Nat) :
    Nat → TransState → List GDecl → TransState × List GDecl
  | 0, st, _ => (st, [])
  | _ + 1, st, [] => (st, [])
  | qf + 1, st, declsToDo =>
    let p := translateDeclsF ident instFn instTypeFn callKind recvHasTParams f
      st declsToDo
    let next := p.1.newDecls
    let q := translateLoopF ident instFn instTypeFn callKind recvHasTParams f qf
      { p.1 with newDecls := [] } next
    (q.1, p.2 ++ q.2)

/-- `rewriteAST` of the source: a fresh translator per file runs
`translate`; the import bookkeeping is excluded (external collaborator);
the translator's sticky `err` is the function's error result. -/
def rewriteASTF (ident : Idx → Idx → Bool)
    (instFn : TransState → String → List Idx → Except String (String × TransState))
    (instTypeFn : TransState → Nat → List Idx →
      Except String (String × Idx × TransState))
    (callKind : GExpr → CallKind) (recvHasTParams : GDecl → Bool) (f qf : Nat)
    (fileDecls : List GDecl) : TransState × List GDecl :=
  translateLoopF ident instFn instTypeFn callKind recvHasTParams f qf
    ⟨[], [], [], none⟩ fileDecls

/-- `rewriteFile` of the source: the output file is created and written
only after `rewriteAST` returns without error; on error nothing is
produced. -/
def rewriteFileF (ident : Idx → Idx → Bool)
    (instFn : TransState → String → List Idx → Except String (String × TransState))
    (instTypeFn : TransState → Nat → List Idx →
      Except String (String × Idx × TransState))
    (callKind : GExpr → CallKind) (recvHasTParams : GDecl → Bool) (f qf : Nat)
    (fileDecls : List GDecl) : Option (List GDecl) × Option String :=
  let p := rewriteASTF ident instFn instTypeFn callKind recvHasTParams f qf
    fileDecls
  match p.1.err with
  | some e => (none, some e)
  | none => (some p.2, none)

/-! ## The declaration checker (C4, C5, C7, C8)

Models for `golib/types/decl.go`: checker objects, the cycle classifier
`cycle`, the error reporter `cycleError` / `firstInSrc`, the
infinite-expansion walk `validType`, and the contract-argument checking of
`contractExpr`.  Checker objects are values carrying name, source position
and kind; pointer identity of `types.Object` is value identity here (the
model gives distinct objects distinct fields).  `check.errorf` appends a
formatted message to the diagnostic sink, modelled by returning/accumulating
message lists. -/

/-- The object kinds `cycle` distinguishes: `*Const`, `*Var`, `*TypeName`
(with the object's own alias predicate), `*Func`, `*Contract`. -/
inductive ObjKind where
  | constO
  | varO
  | typeNameO (isAlias : Bool)
  | funcO
  | contractO
deriving DecidableEq

/-- A checker object: name, source position, kind. -/
structure GObj where
  name : String
  pos : Nat
  kind : ObjKind
deriving DecidableEq

instance : Inhabited GObj := ⟨⟨"", 0, .funcO⟩⟩

/-- The scan loop of `firstInSrc` over the path tail: `i` is the index of
the next element, `fst` and `pos` the best index and position so far. -/
def firstInSrcAux : List GObj → Nat → Nat → Nat → Nat
  | [], _, fst, _ => fst
  | t :: rest, i, fst, pos =>
    if t.pos < pos then firstInSrcAux rest (i + 1) i t.pos
    else firstInSrcAux rest (i + 1) fst pos

/-- `firstInSrc` of the source: the index of the object with the smallest
source position (the first such index).  The source requires a non-empty
path. -/
def firstInSrc : List GObj → Nat
  | [] => 0
  | p0 :: rest => firstInSrcAux rest 1 0 p0.pos

/-- The report loop of `cycleError`: one "refers to" line per cycle member,
advancing and wrapping the index, then the final line naming the object the
loop ends on. -/
def cycleErrorLoop : Nat → List GObj → Nat → GObj → List String
  | 0, _, _, obj => ["\t" ++ obj.name]
  | n + 1, cyc, i, obj =>
    ("\t" ++ obj.name ++ " refers to") ::
      (let j := if i + 1 ≥ cyc.length then 0 else i + 1
       cycleErrorLoop n cyc j (cyc.getD j default))

/-- `cycleError` of the source: the primary message names the
first-in-source object, then the loop above. -/
def cycleError (cyc : List GObj) : List String :=
  let i := firstInSrc cyc
  let obj := cyc.getD i default
  ("illegal cycle in declaration of " ++ obj.name) ::
    cycleErrorLoop cyc.length cyc i obj

/-- The alias determination of `cycle`: package-level objects use the
object map's syntactic `tdecl.Assign.IsValid()`, local objects the object's
own `IsAlias()` predicate. -/
def objAlias (objMap : GObj → Option Bool) (o : GObj) (isAlias : Bool) : Bool :=
  match objMap o with
  | some assignValid => assignValid
  | none => isAlias

/-- The counting loop of `cycle`: `nval` values (constants and variables)
and `ndef` non-alias type definitions; functions and contracts are
ignored. -/
def cycleCounts (objMap : GObj → Option Bool) : List GObj → Nat × Nat
  | [] => (0, 0)
  | o :: rest =>
    let p := cycleCounts objMap rest
    match o.kind with
    | .constO => (p.1 + 1, p.2)
    | .varO => (p.1 + 1, p.2)
    | .typeNameO isAlias =>
      if objAlias objMap o isAlias then p else (p.1, p.2 + 1)
    | .funcO => p
    | .contractO => p

/-- `cycle` of the source: classify the resolution-stack suffix starting at
the object's recorded position.  All-value cycles and all-type cycles with
a non-alias definition pass silently; everything else reports the cycle and
returns true. -/
def cycleF (objMap : GObj → Option Bool) (objPath : List GObj) (start : Nat) :
    Bool × List String :=
  let cyc := objPath.drop start
  let n := cycleCounts objMap cyc
  if n.1 = cyc.length then (false, [])
  else if n.1 = 0 ∧ n.2 > 0 then (false, [])
  else (true, cycleError cyc)

/-- Whether an object is a constant or variable declaration. -/
def isValueDecl (o : GObj) : Bool :=
  match o.kind with
  | .constO => true
  | .varO => true
  | _ => false

/-- Whether an object is a non-alias type definition. -/
def isNonAliasTypeDef (objMap : GObj → Option Bool) (o : GObj) : Bool :=
  match o.kind with
  | .typeNameO isAlias => !objAlias objMap o isAlias
  | _ => false

/-- The type shapes the `validType` walk distinguishes: it descends through
array elements, struct fields and interface embedded types, treats named
types via their per-type state, and accepts every other shape outright. -/
inductive VType where
  | basic
  | invalid
  | array (elem : VType)
  | struct (fields : List VType)
  | iface (embeds : List VType)
  | named (id : Nat)
  | ptr (elem : VType)
  | slice (elem : VType)
  | mapT (key : VType) (elem : VType)
  | chan (elem : VType)
  | sig (parts : List VType)

/-- `typeInfo` of the source: unknown, marked, valid, invalid. -/
inductive TInfo where
  | unknown
  | marked
  | validI
  | invalidI
deriving DecidableEq

/-- The mutable per-named-type state `validType` reads and writes: the
type-name object, whether it belongs to the package being checked, the
original (`orig`) and current underlying types, and the completion
marker. -/
structure NamedEnt where
  obj : GObj
  samePkg : Bool
  orig : VType
  underlying : VType
  info : TInfo

instance : Inhabited NamedEnt :=
  ⟨⟨default, false, .basic, .basic, .unknown⟩⟩

/-- The checker state of the walk: the named-type arena and the diagnostic
sink. -/
structure VState where
  named : List NamedEnt
  errors : List String

/-- Dereference a named type. -/
def getNamed (vs : VState) (id : Nat) : NamedEnt :=
  vs.named.getD id default

/-- Assign the `info` field of a named type. -/
def setInfo (vs : VState) (id : Nat) (i : TInfo) : VState :=
  { vs with named := vs.named.set id ({ getNamed vs id with info := i }) }

/-- Whether a type value is the invalid sentinel (the pointer comparison
with the singleton invalid basic type). -/
def isInvalidV : VType → Bool
  | .invalid => true
  | _ => false

/-- The cycle-detected assignment: the completion marker and the
underlying type are both set to invalid. -/
def setInvalidNamed (vs : VState) (id : Nat) : VState :=
  { vs with
    named := vs.named.set id
      ({ getNamed vs id with info := .invalidI, underlying := .invalid }) }

/-- The loops of `validType` over struct fields and interface embedded
types: stop at the first invalid member, otherwise fall through to
`valid`. -/
def validFieldsD
    (vt : VState → VType → List GObj → Option (VState × TInfo)) :
    VState → List VType → List GObj → Option (VState × TInfo)
  | vs, [], _ => some (vs, .validI)
  | vs, f :: fs, path =>
    match vt vs f path with
    | none => none
    | some (vs1, i) =>
      if i = .invalidI then some (vs1, .invalidI)
      else validFieldsD vt vs1 fs path

/-- `validType` of the source.  Fuel replaces the call stack; exhausted
fuel is `none`, as are the source's two internal panics (a marked type not
on the path, and a package-external type in the path scan — unreachable
from the entry guard). -/
def validTypeF : Nat → VState → VType → List GObj → Option (VState × TInfo)
  | 0, _, _, _ => none
  | fuel + 1, vs, t, path =>
    match t with
    | .array elem => validTypeF fuel vs elem path
    | .struct fields => validFieldsD (validTypeF fuel) vs fields path
    | .iface embeds => validFieldsD (validTypeF fuel) vs embeds path
    | .named id =>
      let ent := getNamed vs id
      if !ent.samePkg then some (vs, .validI)
      else if isInvalidV ent.underlying then
        some (setInfo vs id .invalidI, .invalidI)
      else
        match ent.info with
        | .unknown =>
          let vs1 := setInfo vs id .marked
          match validTypeF fuel vs1 ent.orig (path ++ [ent.obj]) with
          | none => none
          | some (vs2, r) =>
            let vs3 := setInfo vs2 id r
            some (vs3, (getNamed vs3 id).info)
        | .marked =>
          match path.findIdx? fun tn => tn = ent.obj with
          | some i =>
            let vs1 := setInvalidNamed vs id
            some ({ vs1 with errors := vs.errors ++ cycleError (path.drop i) },
              .invalidI)
          | none => none
        | .validI => some (vs, .validI)
        | .invalidI => some (vs, .invalidI)
    | _ => some (vs, .validI)

/-- The resolved types the contract-argument loop distinguishes: a type
parameter, the invalid type, some other named type, and the result of
`check.instantiate` (modelled structurally, as instantiation itself is
outside this file's scope). -/
inductive CTy where
  | tparamT (id : Nat)
  | invalidT
  | namedT (name : String)
  | instT (bound : CTy) (targs : List CTy)

instance : BEq CTy := ⟨fun a b =>
  match a, b with
  | .tparamT i, .tparamT j => i == j
  | .invalidT, .invalidT => true
  | .namedT n, .namedT m => n == m
  | _, _ => false⟩

/-- A contract object: the number of formal type parameters and their
bound types. -/
structure GContract where
  tparams : Nat
  bounds : List CTy

/-- Rendering of an argument for a diagnostic message. -/
def ctyStr : CTy → String
  | .tparamT id => "tp" ++ toString id
  | .invalidT => "invalid"
  | .namedT n => n
  | .instT _ _ => "inst"

/-- The outcome of contract-argument checking: the updated `unused` set,
the collected `targs`, diagnostics, the bound assignments performed on
success, and validity. -/
structure ContractArgsRes where
  unused : List (Nat × Bool)
  targs : List CTy
  errors : List String
  assigns : List (Nat × CTy)
  valid : Bool

/-- The argument loop of `contractExpr`: a still-unused incoming type
parameter is consumed and collected; an already-used one and a
non-parameter are reported; an invalid argument is skipped silently. -/
def contractArgsLoop (unused : List (Nat × Bool)) :
    List CTy → List (Nat × Bool) × List CTy × List String
  | [] => (unused, [], [])
  | arg :: rest =>
    match arg with
    | .tparamT id =>
      match unused.lookup id with
      | some true =>
        let r := contractArgsLoop (assocSet unused id false) rest
        (r.1, arg :: r.2.1, r.2.2)
      | some false =>
        let r := contractArgsLoop unused rest
        (r.1, r.2.1,
          (ctyStr arg ++
            " used multiple times (not supported due to implementation restriction)") ::
            r.2.2)
      | none =>
        let r := contractArgsLoop unused rest
        (r.1, r.2.1,
          (ctyStr arg ++
            " is not an incoming type parameter (not supported due to implementation restriction)") ::
            r.2.2)
    | .invalidT => contractArgsLoop unused rest
    | _ =>
      let r := contractArgsLoop unused rest
      (r.1, r.2.1,
        (ctyStr arg ++
          " is not a type parameter (not supported due to implementation restriction)") ::
          r.2.2)

/-- The parameter id of a type-parameter argument. -/
def tparamIdOf : CTy → Nat
  | .tparamT id => id
  | _ => 0

/-- The instantiated-contract path of `contractExpr` (its body for a call
with arguments): arity check, the argument loop, the all-arguments-valid
check, and on success one bound assignment per formal, positionally, each
bound instantiated with the full argument list. -/
def contractInstArgs (obj : GContract) (args : List CTy)
    (unused : List (Nat × Bool)) : ContractArgsRes :=
  if args.length ≠ obj.tparams then
    ⟨unused, [],
      [toString args.length ++ " type parameters but contract expects " ++
        toString obj.tparams], [], false⟩
  else
    let r := contractArgsLoop unused args
    if r.2.1.length ≠ args.length then ⟨r.1, r.2.1, r.2.2, [], false⟩
    else
      let assigns := (obj.bounds.zip r.2.1).map fun p =>
        (tparamIdOf p.2, CTy.instT p.1 r.2.1)
      ⟨r.1, r.2.1, r.2.2, assigns, true⟩

/-- Whether an argument is the type parameter with the given id. -/
def isTParamId (id : Nat) : CTy → Bool
  | .tparamT j => j = id
  | _ => false

/-- Whether an argument is neither a type parameter nor the invalid
type. -/
def isNonParamArg : CTy → Bool
  | .namedT _ => true
  | .instT _ _ => true
  | _ => false

/-! ## Basic facts about the arena -/

/-- Reading back a freshly allocated node. -/
theorem getNode_alloc (st : TState) (n : TyNode) :
    getNode (allocNode st n).1 (allocNode st n).2 = n := by
  simp [getNode, allocNode, List.getD]

/-- Reading an existing index is unchanged by an allocation. -/
theorem getNode_alloc_lt (st : TState) (n : TyNode) (i : Idx)
    (h : i < st.arena.length) :
    getNode (allocNode st n).1 i = getNode st i := by
  simp [getNode, allocNode, List.getD, List.getElem?_append_left h]

/-- `getNode` only depends on the arena. -/
theorem getNode_arena_eq (st st' : TState) (i : Idx)
    (h : st'.arena = st.arena) : getNode st' i = getNode st i := by
  simp [getNode, h]

/-! ## C1: the Array case of `doInstantiateType`

Substituting into `[2]T` with the argument list `T ↦ int`: substituting the
element type `T` alone yields `int`, so the array must be rebuilt; the
source rebuilds it as `types.NewArray(elem, typ.Len())`, i.e. with the
*original* element `T`, not the substituted one `int` (contrast the Slice,
Pointer and Chan cases, which pass the substituted element).  The theorem
below evaluates the engine at this input and exhibits the divergence. -/

/-- C1.  Arena: index 0 is the type parameter `T`, index 1 is `int`, index 2
is the array `[2]T`; the type-argument list maps `T` to `int`.  Substituting
index 0 yields `int` (index 1), so the element changed and the array is
rebuilt — but the rebuilt node is `[2]T` again (element index 0), not
`[2]int`, contradicting the claim that the rebuilt array's element type
equals the substituted element. -/
theorem array_substitution_keeps_original_element :
    (instantiateTypeF (fun a b => a == b) 3
        ⟨[.tparam 0, .basic "int", .array 0 2], []⟩ ⟨[0], [1]⟩ 0).2 = 1 ∧
    (instantiateTypeF (fun a b => a == b) 3
        ⟨[.tparam 0, .basic "int", .array 0 2], []⟩ ⟨[0], [1]⟩ 2).2 = 3 ∧
    getNode (instantiateTypeF (fun a b => a == b) 3
        ⟨[.tparam 0, .basic "int", .array 0 2], []⟩ ⟨[0], [1]⟩ 2).1 3 =
      .array 0 2 ∧
    TyNode.array 0 2 ≠ TyNode.array 1 2 := by
  decide

/-! ## C6: the Struct case of `doInstantiateType` -/

/-- The struct field loop preserves field names and their order. -/
theorem instStructFieldsD_names (inst : TState → TypeArgs → Idx → TState × Idx) :
    ∀ (flds : List (String × Idx)) (st : TState) (ta : TypeArgs)
      (tagAt : Nat → String) (i : Nat),
      (instStructFieldsD inst st ta flds tagAt i).fields.map Prod.fst =
        flds.map Prod.fst := by
  intro flds
  induction flds with
  | nil => intro st ta tagAt i; rfl
  | cons fld rest ih =>
    intro st ta tagAt i
    simp [instStructFieldsD, ih]

/-- The struct field loop collects exactly one tag per field. -/
theorem instStructFieldsD_tags_length (inst : TState → TypeArgs → Idx → TState × Idx) :
    ∀ (flds : List (String × Idx)) (st : TState) (ta : TypeArgs)
      (tagAt : Nat → String) (i : Nat),
      (instStructFieldsD inst st ta flds tagAt i).tags.length = flds.length := by
  intro flds
  induction flds with
  | nil => intro st ta tagAt i; rfl
  | cons fld rest ih =>
    intro st ta tagAt i
    simp [instStructFieldsD, ih]

/-- The collected tag table reproduces the original tags positionally
(an empty original tag is collected as the zero value `""`, exactly what
`make([]string, n)` provides). -/
theorem instStructFieldsD_tags_getD (inst : TState → TypeArgs → Idx → TState × Idx) :
    ∀ (flds : List (String × Idx)) (st : TState) (ta : TypeArgs)
      (tagAt : Nat → String) (i : Nat) (k : Nat), k < flds.length →
      (instStructFieldsD inst st ta flds tagAt i).tags.getD k "" = tagAt (i + k) := by
  intro flds
  induction flds with
  | nil => intro st ta tagAt i k hk; simp at hk
  | cons fld rest ih =>
    intro st ta tagAt i k hk
    cases k with
    | zero => simp [instStructFieldsD]
    | succ k' =>
      have hk' : k' < rest.length := by simpa using Nat.lt_of_succ_lt_succ hk
      have := ih (inst st ta fld.2).1 ta tagAt (i + 1) k' hk'
      simp [instStructFieldsD, List.getD]
      rw [show i + (k' + 1) = (i + 1) + k' by omega] at *
      simpa [List.getD] using this

/-- `hasTag` is set iff some field of the original struct has a non-empty
tag. -/
theorem instStructFieldsD_hasTag (inst : TState → TypeArgs → Idx → TState × Idx) :
    ∀ (flds : List (String × Idx)) (st : TState) (ta : TypeArgs)
      (tagAt : Nat → String) (i : Nat),
      (instStructFieldsD inst st ta flds tagAt i).hasTag = false ↔
        ∀ k < flds.length, tagAt (i + k) = "" := by
  intro flds
  induction flds with
  | nil => intro st ta tagAt i; simp [instStructFieldsD]
  | cons fld rest ih =>
    intro st ta tagAt i
    simp only [instStructFieldsD, Bool.or_eq_false_iff]
    constructor
    · rintro ⟨h1, h2⟩ k hk
      cases k with
      | zero => simpa using h1
      | succ k' =>
        have := (ih (inst st ta fld.2).1 ta tagAt (i + 1)).mp h2 k' (by simpa using Nat.lt_of_succ_lt_succ hk)
        rw [show i + (k' + 1) = (i + 1) + k' by omega]
        exact this
    · intro h
      refine ⟨by simpa using h 0 (by simp), ?_⟩
      refine (ih (inst st ta fld.2).1 ta tagAt (i + 1)).mpr ?_
      intro k hk
      rw [show (i + 1) + k = i + (k + 1) by omega]
      exact h (k + 1) (by simpa using Nat.succ_lt_succ hk)

/-- The `changed` flag is clear iff the rebuilt field vector coincides with
the original one (names are always kept, so this is exactly "no field's
type changed"). -/
theorem instStructFieldsD_changed (inst : TState → TypeArgs → Idx → TState × Idx) :
    ∀ (flds : List (String × Idx)) (st : TState) (ta : TypeArgs)
      (tagAt : Nat → String) (i : Nat),
      (instStructFieldsD inst st ta flds tagAt i).changed = false ↔
        (instStructFieldsD inst st ta flds tagAt i).fields = flds := by
  intro flds
  induction flds with
  | nil => intro st ta tagAt i; simp [instStructFieldsD]
  | cons fld rest ih =>
    intro st ta tagAt i
    simp only [instStructFieldsD, Bool.or_eq_false_iff, bne_eq_false_iff_eq]
    constructor
    · rintro ⟨h1, h2⟩
      have := (ih (inst st ta fld.2).1 ta tagAt (i + 1)).mp h2
      simp [this, ← h1]
    · intro h
      rw [List.cons_eq_cons] at h
      obtain ⟨h1, h2⟩ := h
      have hsnd : (inst st ta fld.2).2 = fld.2 := by
        have := congrArg Prod.snd h1; simpa using this
      exact ⟨hsnd.symm, (ih (inst st ta fld.2).1 ta tagAt (i + 1)).mpr h2⟩

/-- C6: when substituting into a struct, each field's type is substituted
while field name, order, and tag are preserved positionally; the identical
struct (the same arena index) is returned if no field's type changed; and a
rebuilt struct carries no tag table at all if no field has a non-empty tag,
and otherwise carries every original tag at its original position. -/
theorem struct_substitution_preserves_fields_and_tags
    (ident : Idx → Idx → Bool) (f : Nat) (st : TState) (ta : TypeArgs)
    (i : Idx) (flds : List (String × Idx)) (tags : Option (List String))
    (h : getNode st i = .struct flds tags)
    (r : StructRes)
    (hr : r = instStructFieldsD (instantiateTypeF ident f) st ta flds (tagOf tags) 0) :
    (∀ k < flds.length, tagOf (if r.hasTag then some r.tags else none) k = tagOf tags k) ∧
    r.fields.map Prod.fst = flds.map Prod.fst ∧
    (r.changed = false ↔ r.fields = flds) ∧
    (r.changed = false → doInstantiateTypeF ident f st ta i = (r.st, i)) ∧
    (r.changed = true →
      doInstantiateTypeF ident f st ta i =
        allocNode r.st (.struct r.fields (if r.hasTag then some r.tags else none))) ∧
    (r.hasTag = false ↔ ∀ k < flds.length, tagOf tags k = "") ∧
    r.tags.length = flds.length := by
  subst hr
  have htag : ∀ k < flds.length,
      (instStructFieldsD (instantiateTypeF ident f) st ta flds (tagOf tags) 0).tags.getD k "" =
        tagOf tags k := by
    intro k hk
    simpa using instStructFieldsD_tags_getD (instantiateTypeF ident f) flds st ta (tagOf tags) 0 k hk
  have hht := instStructFieldsD_hasTag (instantiateTypeF ident f) flds st ta (tagOf tags) 0
  simp only [Nat.zero_add] at hht
  refine ⟨?_, instStructFieldsD_names _ flds st ta _ 0, instStructFieldsD_changed _ flds st ta _ 0, ?_, ?_, hht, instStructFieldsD_tags_length _ flds st ta _ 0⟩
  · intro k hk
    by_cases hh : (instStructFieldsD (instantiateTypeF ident f) st ta flds (tagOf tags) 0).hasTag
    · simp only [hh, if_true]
      rw [show tagOf (some (instStructFieldsD (instantiateTypeF ident f) st ta flds (tagOf tags) 0).tags) k = (instStructFieldsD (instantiateTypeF ident f) st ta flds (tagOf tags) 0).tags.getD k "" from rfl]
      exact htag k hk
    · simp only [Bool.not_eq_true] at hh
      simp only [hh, if_false]
      have := hht.mp hh k hk
      simp only [tagOf, List.getD] at this ⊢
      exact this.symm
  · intro hch
    simp [doInstantiateTypeF, doInstantiateTypeD, h, hch]
  · intro hch
    simp [doInstantiateTypeF, doInstantiateTypeD, h, hch]

/-- Witness for C6 at a concrete struct with one tagged field. -/
theorem struct_substitution_witness :
    getNode ⟨[.tparam 0, .basic "int", .struct [("x", 0)] (some ["a"])], []⟩ 2 =
      TyNode.struct [("x", 0)] (some ["a"]) ∧
    (∀ k < ([("x", (0 : Idx))]).length,
      tagOf
        (if (instStructFieldsD (instantiateTypeF (fun a b => a == b) 2)
              ⟨[.tparam 0, .basic "int", .struct [("x", 0)] (some ["a"])], []⟩
              ⟨[0], [1]⟩ [("x", 0)] (tagOf (some ["a"])) 0).hasTag
          then some (instStructFieldsD (instantiateTypeF (fun a b => a == b) 2)
              ⟨[.tparam 0, .basic "int", .struct [("x", 0)] (some ["a"])], []⟩
              ⟨[0], [1]⟩ [("x", 0)] (tagOf (some ["a"])) 0).tags
          else none) k = tagOf (some ["a"]) k) :=
  ⟨by decide,
    (struct_substitution_preserves_fields_and_tags (fun a b => a == b) 2
      ⟨[.tparam 0, .basic "int", .struct [("x", 0)] (some ["a"])], []⟩
      ⟨[0], [1]⟩ 2 [("x", 0)] (some ["a"]) (by decide) _ rfl).1⟩

/-- The plain type-list loops are no-ops on unaffected elements. -/
theorem instIdxListD_noop (ident : Idx → Idx → Bool) (ta : TypeArgs)
    (ar : List TyNode) (aff : Idx → Bool)
    (inst : TState → TypeArgs → Idx → TState × Idx)
    (h : NoopAt ident ta ar aff inst) :
    ∀ (xs : List Idx) (st : TState), st.arena = ar → CacheOK ident st ta →
      affListD aff xs = false →
      (instIdxListD inst st ta xs).list = xs ∧
      (instIdxListD inst st ta xs).changed = false ∧
      (instIdxListD inst st ta xs).st.arena = ar ∧
      CacheOK ident (instIdxListD inst st ta xs).st ta := by
  intro xs
  induction xs with
  | nil => intro st har hc _; exact ⟨rfl, rfl, har, hc⟩
  | cons x xs ih =>
    intro st har hc haff
    simp only [affListD, Bool.or_eq_false_iff] at haff
    obtain ⟨h1, h2, h3⟩ := h st x har hc haff.1
    obtain ⟨g1, g2, g3, g4⟩ := ih (inst st ta x).1 h2 h3 haff.2
    refine ⟨?_, ?_, ?_, ?_⟩ <;>
      simp [instIdxListD, g1, g2, g3, g4, h1]

/-- The tuple-variable loop is a no-op on unaffected element types. -/
theorem instVarsD_noop (ident : Idx → Idx → Bool) (ta : TypeArgs)
    (ar : List TyNode) (aff : Idx → Bool)
    (inst : TState → TypeArgs → Idx → TState × Idx)
    (h : NoopAt ident ta ar aff inst) :
    ∀ (vs : List (String × Idx)) (st : TState), st.arena = ar →
      CacheOK ident st ta → affListD aff (vs.map Prod.snd) = false →
      (instVarsD inst st ta vs).fields = vs ∧
      (instVarsD inst st ta vs).changed = false ∧
      (instVarsD inst st ta vs).st.arena = ar ∧
      CacheOK ident (instVarsD inst st ta vs).st ta := by
  intro vs
  induction vs with
  | nil => intro st har hc _; exact ⟨rfl, rfl, har, hc⟩
  | cons v vs ih =>
    intro st har hc haff
    simp only [List.map_cons, affListD, Bool.or_eq_false_iff] at haff
    obtain ⟨h1, h2, h3⟩ := h st v.2 har hc haff.1
    obtain ⟨g1, g2, g3, g4⟩ := ih (inst st ta v.2).1 h2 h3 haff.2
    refine ⟨?_, ?_, ?_, ?_⟩ <;>
      simp [instVarsD, g1, g2, g3, g4, h1]

/-- The interface-method loop is a no-op on unaffected signatures. -/
theorem instMethodsD_noop (ident : Idx → Idx → Bool) (ta : TypeArgs)
    (ar : List TyNode) (aff : Idx → Bool)
    (inst : TState → TypeArgs → Idx → TState × Idx)
    (h : NoopAt ident ta ar aff inst) :
    ∀ (ms : List (String × Idx)) (st : TState), st.arena = ar →
      CacheOK ident st ta → affListD aff (ms.map Prod.snd) = false →
      (instMethodsD inst st ta ms).fields = ms ∧
      (instMethodsD inst st ta ms).changed = false ∧
      (instMethodsD inst st ta ms).st.arena = ar ∧
      CacheOK ident (instMethodsD inst st ta ms).st ta := by
  intro ms
  induction ms with
  | nil => intro st har hc _; exact ⟨rfl, rfl, har, hc⟩
  | cons m ms ih =>
    intro st har hc haff
    simp only [List.map_cons, affListD, Bool.or_eq_false_iff] at haff
    obtain ⟨h1, h2, h3⟩ := h st m.2 har hc haff.1
    obtain ⟨g1, g2, g3, g4⟩ := ih (inst st ta m.2).1 h2 h3 haff.2
    refine ⟨?_, ?_, ?_, ?_⟩ <;>
      simp [instMethodsD, g1, g2, g3, g4, h1]

/-- The struct-field loop is a no-op on unaffected field types. -/
theorem instStructFieldsD_noop (ident : Idx → Idx → Bool) (ta : TypeArgs)
    (ar : List TyNode) (aff : Idx → Bool)
    (inst : TState → TypeArgs → Idx → TState × Idx)
    (h : NoopAt ident ta ar aff inst) :
    ∀ (flds : List (String × Idx)) (st : TState) (tagAt : Nat → String)
      (i : Nat), st.arena = ar → CacheOK ident st ta →
      affListD aff (flds.map Prod.snd) = false →
      (instStructFieldsD inst st ta flds tagAt i).changed = false ∧
      (instStructFieldsD inst st ta flds tagAt i).st.arena = ar ∧
      CacheOK ident (instStructFieldsD inst st ta flds tagAt i).st ta := by
  intro flds
  induction flds with
  | nil => intro st tagAt i har hc _; exact ⟨rfl, har, hc⟩
  | cons fld rest ih =>
    intro st tagAt i har hc haff
    simp only [List.map_cons, affListD, Bool.or_eq_false_iff] at haff
    obtain ⟨h1, h2, h3⟩ := h st fld.2 har hc haff.1
    obtain ⟨g1, g2, g3⟩ := ih (inst st ta fld.2).1 tagAt (i + 1) h2 h3 haff.2
    refine ⟨?_, ?_, ?_⟩ <;>
      simp [instStructFieldsD, g1, g2, g3, h1]

/-- `instantiateTypeTuple` is a no-op on unaffected tuples. -/
theorem instantiateTypeTupleD_noop (ident : Idx → Idx → Bool) (ta : TypeArgs)
    (ar : List TyNode) (aff : Idx → Bool)
    (inst : TState → TypeArgs → Idx → TState × Idx)
    (h : NoopAt ident ta ar aff inst) :
    ∀ (o : Option Idx) (st : TState), st.arena = ar → CacheOK ident st ta →
      affTupleD aff ar o = false →
      (instantiateTypeTupleD inst st ta o).2 = o ∧
      (instantiateTypeTupleD inst st ta o).1.arena = ar ∧
      CacheOK ident (instantiateTypeTupleD inst st ta o).1 ta := by
  intro o st har hc haff
  cases o with
  | none => exact ⟨rfl, har, hc⟩
  | some tup =>
    simp only [affTupleD] at haff
    have hget : getNode st tup = ar.getD tup (.basic "unknown") := by
      simp [getNode, har]
    cases hnode : ar.getD tup (.basic "unknown")
    case tuple vars =>
      rw [hnode] at haff
      obtain ⟨g1, g2, g3, g4⟩ := instVarsD_noop ident ta ar aff inst h vars st har hc haff
      simp only [instantiateTypeTupleD, hget, hnode, g2]
      exact ⟨rfl, g3, g4⟩
    all_goals
      have e : instantiateTypeTupleD inst st ta (some tup) = (st, some tup) := by
        simp only [instantiateTypeTupleD, hget, hnode]
    all_goals rw [e]
    all_goals exact ⟨rfl, har, hc⟩

/-- `doInstantiateType` returns the identical input on every unaffected
shape, for every shape kind it handles. -/
theorem doInstantiateTypeD_noop (ident : Idx → Idx → Bool) (ta : TypeArgs)
    (ar : List TyNode) (aff : Idx → Bool)
    (inst : TState → TypeArgs → Idx → TState × Idx)
    (h : NoopAt ident ta ar aff inst) :
    ∀ (st : TState) (i : Idx), st.arena = ar → CacheOK ident st ta →
      affDoD aff ar ta i = false →
      (doInstantiateTypeD inst st ta i).2 = i ∧
      (doInstantiateTypeD inst st ta i).1.arena = ar ∧
      CacheOK ident (doInstantiateTypeD inst st ta i).1 ta := by
  intro st i har hc haff
  have hget : getNode st i = ar.getD i (.basic "unknown") := by
    simp [getNode, har]
  simp only [affDoD] at haff
  cases hnode : ar.getD i (.basic "unknown")
  case basic nm =>
    have e : doInstantiateTypeD inst st ta i = (st, i) := by
      simp only [doInstantiateTypeD, hget, hnode]
    rw [e]; exact ⟨rfl, har, hc⟩
  case array elem len =>
    rw [hnode] at haff
    obtain ⟨h1, h2, h3⟩ := h st elem har hc haff
    have e : doInstantiateTypeD inst st ta i = ((inst st ta elem).1, i) := by
      simp only [doInstantiateTypeD, hget, hnode, h1, if_pos]
    rw [e]; exact ⟨rfl, h2, h3⟩
  case slice elem =>
    rw [hnode] at haff
    obtain ⟨h1, h2, h3⟩ := h st elem har hc haff
    have e : doInstantiateTypeD inst st ta i = ((inst st ta elem).1, i) := by
      simp only [doInstantiateTypeD, hget, hnode, h1, if_pos]
    rw [e]; exact ⟨rfl, h2, h3⟩
  case ptr elem =>
    rw [hnode] at haff
    obtain ⟨h1, h2, h3⟩ := h st elem har hc haff
    have e : doInstantiateTypeD inst st ta i = ((inst st ta elem).1, i) := by
      simp only [doInstantiateTypeD, hget, hnode, h1, if_pos]
    rw [e]; exact ⟨rfl, h2, h3⟩
  case chan dir elem =>
    rw [hnode] at haff
    obtain ⟨h1, h2, h3⟩ := h st elem har hc haff
    have e : doInstantiateTypeD inst st ta i = ((inst st ta elem).1, i) := by
      simp only [doInstantiateTypeD, hget, hnode, h1, if_pos]
    rw [e]; exact ⟨rfl, h2, h3⟩
  case struct fields tags =>
    rw [hnode] at haff
    obtain ⟨g1, g2, g3⟩ :=
      instStructFieldsD_noop ident ta ar aff inst h fields st (tagOf tags) 0 har hc haff
    have e : doInstantiateTypeD inst st ta i =
        ((instStructFieldsD inst st ta fields (tagOf tags) 0).st, i) := by
      simp only [doInstantiateTypeD, hget, hnode, g1]
      simp
    rw [e]; exact ⟨rfl, g2, g3⟩
  case tuple vars =>
    rw [hnode] at haff
    have htup : affTupleD aff ar (some i) = false := by
      simp only [affTupleD, hnode]; exact haff
    obtain ⟨g1, g2, g3⟩ :=
      instantiateTypeTupleD_noop ident ta ar aff inst h (some i) st har hc htup
    have e : doInstantiateTypeD inst st ta i =
        ((instantiateTypeTupleD inst st ta (some i)).1,
          (instantiateTypeTupleD inst st ta (some i)).2.getD i) := by
      simp only [doInstantiateTypeD, hget, hnode]
    rw [e, g1]; exact ⟨rfl, g2, g3⟩
  case sig recv params results variadic tparams =>
    rw [hnode] at haff
    simp only [Bool.or_eq_false_iff] at haff
    obtain ⟨g1, g2, g3⟩ :=
      instantiateTypeTupleD_noop ident ta ar aff inst h params st har hc haff.1
    obtain ⟨k1, k2, k3⟩ :=
      instantiateTypeTupleD_noop ident ta ar aff inst h results
        (instantiateTypeTupleD inst st ta params).1 g2 g3 haff.2
    have e : doInstantiateTypeD inst st ta i =
        ((instantiateTypeTupleD inst (instantiateTypeTupleD inst st ta params).1
            ta results).1, i) := by
      simp only [doInstantiateTypeD, hget, hnode, g1, k1]
      simp
    rw [e]; exact ⟨rfl, k2, k3⟩
  case iface methods embeddeds =>
    rw [hnode] at haff
    simp only [Bool.or_eq_false_iff] at haff
    obtain ⟨g1, g2, g3, g4⟩ :=
      instMethodsD_noop ident ta ar aff inst h methods st har hc haff.1
    obtain ⟨k1, k2, k3, k4⟩ :=
      instIdxListD_noop ident ta ar aff inst h embeddeds
        (instMethodsD inst st ta methods).st g3 g4 haff.2
    have e : doInstantiateTypeD inst st ta i =
        ((instIdxListD inst (instMethodsD inst st ta methods).st ta embeddeds).st,
          i) := by
      simp only [doInstantiateTypeD, hget, hnode, g2, k2]
      simp
    rw [e]; exact ⟨rfl, k3, k4⟩
  case mapT key elem =>
    rw [hnode] at haff
    simp only [Bool.or_eq_false_iff] at haff
    obtain ⟨h1, h2, h3⟩ := h st key har hc haff.1
    obtain ⟨k1, k2, k3⟩ := h (inst st ta key).1 elem h2 h3 haff.2
    have e : doInstantiateTypeD inst st ta i =
        ((inst (inst st ta key).1 ta elem).1, i) := by
      simp only [doInstantiateTypeD, hget, hnode, h1, k1]
      simp
    rw [e]; exact ⟨rfl, k2, k3⟩
  case named objName targs underlying methods =>
    rw [hnode] at haff
    obtain ⟨g1, g2, g3, g4⟩ := instIdxListD_noop ident ta ar aff inst h targs st har hc haff
    by_cases hlen : targs.length > 0
    · have e : doInstantiateTypeD inst st ta i =
          ((instIdxListD inst st ta targs).st, i) := by
        simp only [doInstantiateTypeD, hget, hnode, hlen, g2]
        simp
      rw [e]; exact ⟨rfl, g3, g4⟩
    · have e : doInstantiateTypeD inst st ta i = (st, i) := by
        simp only [doInstantiateTypeD, hget, hnode, hlen]
        simp
      rw [e]; exact ⟨rfl, har, hc⟩
  case tparam id =>
    simp only [hnode] at haff
    have hnone : ta.typ id = none := by
      cases hv : ta.typ id with
      | none => rfl
      | some v => rw [hv] at haff; simp at haff
    have e : doInstantiateTypeD inst st ta i = (st, i) := by
      simp only [doInstantiateTypeD, hget, hnode, hnone]
    rw [e]; exact ⟨rfl, har, hc⟩

/-- C3 (amended): for every fuel, state whose cache satisfies `CacheOK`,
type-argument list and shape, if no contained type-parameter reference is
affected by the list, `instantiateType` returns the identical input value
(the same arena index, with no new allocation), and the cache hypothesis is
preserved.  This holds for every shape kind handled by the engine. -/
theorem substitution_identity_on_unaffected (ident : Idx → Idx → Bool) :
    ∀ (f : Nat) (st : TState) (ta : TypeArgs) (i : Idx),
      CacheOK ident st ta → affInstF f st.arena ta i = false →
      (instantiateTypeF ident f st ta i).2 = i ∧
      (instantiateTypeF ident f st ta i).1.arena = st.arena ∧
      CacheOK ident (instantiateTypeF ident f st ta i).1 ta := by
  intro f
  induction f with
  | zero => intro st ta i _ haff; simp [affInstF] at haff
  | succ f ih =>
    intro st ta i hc haff
    have hnoop : NoopAt ident ta st.arena (affInstF f st.arena ta)
        (instantiateTypeF ident f) := by
      intro st' i' har' hc' haff'
      have hi := ih st' ta i' hc' (by rw [har']; exact haff')
      exact ⟨hi.1, by rw [hi.2.1, har'], hi.2.2⟩
    have haffdo : affDoD (affInstF f st.arena ta) st.arena ta i = false := by
      simpa only [affInstF] using haff
    cases hlook : lookupCache ident st ta i with
    | some r =>
      have hrec : ∃ rec, (cacheAt st i).find?
          (fun q => sameTypes ident ta.types q.types) = some rec ∧ rec.typ = r := by
        cases hf : (cacheAt st i).find? (fun q => sameTypes ident ta.types q.types) with
        | none => rw [lookupCache, hf] at hlook; simp at hlook
        | some rec =>
          refine ⟨rec, rfl, ?_⟩
          rw [lookupCache, hf] at hlook
          simpa using hlook
      obtain ⟨rec, hfind, hrtyp⟩ := hrec
      have hmemAt : rec ∈ cacheAt st i := List.mem_of_find?_eq_some hfind
      have hsame : sameTypes ident ta.types rec.types = true := by
        have := List.find?_some (p := fun (q : TypeInstRec) => sameTypes ident ta.types q.types) hfind
        simpa using this
      have hkey : rec.key = i := by
        have := (List.mem_filter.mp hmemAt).2
        simpa using this
      have hmem : rec ∈ st.cache := (List.mem_filter.mp hmemAt).1
      have htypkey : rec.typ = rec.key := by
        refine hc rec hmem hsame ⟨f + 1, ?_⟩
        rw [hkey]
        simpa only [affInstF] using haffdo
      have e : instantiateTypeF ident (f + 1) st ta i = (st, r) := by
        simp only [instantiateTypeF, hlook]
      rw [e]
      exact ⟨by rw [← hrtyp, htypkey, hkey], rfl, hc⟩
    | none =>
      obtain ⟨d1, d2, d3⟩ := doInstantiateTypeD_noop ident ta st.arena
        (affInstF f st.arena ta) (instantiateTypeF ident f) hnoop st i rfl hc haffdo
      have e : instantiateTypeF ident (f + 1) st ta i =
          ({ (doInstantiateTypeD (instantiateTypeF ident f) st ta i).1 with
              cache := (doInstantiateTypeD (instantiateTypeF ident f) st ta i).1.cache ++
                [⟨i, ta.types, (doInstantiateTypeD (instantiateTypeF ident f) st ta i).2⟩] },
            (doInstantiateTypeD (instantiateTypeF ident f) st ta i).2) := by
        simp only [instantiateTypeF, hlook]
      rw [e]
      refine ⟨d1, by simpa using d2, ?_⟩
      intro rec hmem hsame hex
    -- the extended state's arena is that of the do-result, i.e. st.arena
      rcases List.mem_append.mp hmem with hm | hm
      · refine d3 rec hm hsame ?_
        obtain ⟨g, hg⟩ := hex
        exact ⟨g, by simpa using hg⟩
      · have : rec = ⟨i, ta.types, (doInstantiateTypeD (instantiateTypeF ident f) st ta i).2⟩ := by
          simpa using hm
        rw [this]
        simpa using d1

/-- Counterexample to C3 as stated: starting from an empty cache, a first
engine run substitutes type parameter `0` (arena index 0) to `int` under
the argument list binding parameter `0`, leaving the cache record
`(tparam 0, [int]) ↦ int`.  A second run on the *same* shape under the
argument list binding the unrelated parameter `7` — with respect to which
the shape is unaffected — hits that record (the stored argument types
`[int]` are Identical) and returns `int`, not the identical input. -/
theorem substitution_unaffected_not_identity :
    affInstF 2 ((instantiateTypeF (fun a b => a == b) 2
        ⟨[.tparam 0, .basic "int"], []⟩ ⟨[0], [1]⟩ 0).1).arena ⟨[7], [1]⟩ 0 = false ∧
    (instantiateTypeF (fun a b => a == b) 2
        (instantiateTypeF (fun a b => a == b) 2
          ⟨[.tparam 0, .basic "int"], []⟩ ⟨[0], [1]⟩ 0).1 ⟨[7], [1]⟩ 0).2 ≠ 0 := by
  decide

/-- Witness for the amended C3 at a concrete unaffected shape (a slice of
`int` under a list binding an unrelated parameter), from the empty cache. -/
theorem substitution_identity_witness :
    CacheOK (fun a b => a == b) ⟨[.basic "int", .tparam 5, .slice 0], []⟩ ⟨[5], [0]⟩ ∧
    (instantiateTypeF (fun a b => a == b) 3
        ⟨[.basic "int", .tparam 5, .slice 0], []⟩ ⟨[5], [0]⟩ 2).2 = 2 :=
  ⟨fun rec hmem _ _ => absurd hmem (List.not_mem_nil rec),
   (substitution_identity_on_unaffected (fun a b => a == b) 3
      ⟨[.basic "int", .tparam 5, .slice 0], []⟩ ⟨[5], [0]⟩ 2
      (fun rec hmem _ _ => absurd hmem (List.not_mem_nil rec)) (by decide)).1⟩

/-- C10: once a type is recorded for an expression — in the importer's table,
or failing that in the translator's own table — `setType` with an Identical
type returns the tables verbatim (no overwrite), and `setType` with a
non-Identical type panics. -/
theorem setType_recorded_type_immutable (ident : Idx → Idx → Bool)
    (tt : TypeTables) (e : Nat) (nt ot : Idx)
    (h : tt.infoTypes.lookup e = some ot ∨
      (tt.infoTypes.lookup e = none ∧ tt.types.lookup e = some ot)) :
    (ident ot nt = true → setType ident tt e nt = some tt) ∧
    (ident ot nt = false → setType ident tt e nt = none) := by
  rcases h with h | ⟨h1, h2⟩
  · constructor <;> intro hid <;> simp [setType, h, hid]
  · constructor <;> intro hid <;> simp [setType, h1, h2, hid]

/-- Witness for C10: an expression recorded in the importer's table with the
identical type, and one recorded in the translator's own table with a
different type. -/
theorem setType_recorded_type_immutable_witness :
    (([((1 : Nat), (5 : Idx))] : List (Nat × Idx)).lookup 1 = some 5 ∨
      (([((1 : Nat), (5 : Idx))] : List (Nat × Idx)).lookup 1 = none ∧
        ([((2 : Nat), (6 : Idx))] : List (Nat × Idx)).lookup 1 = some 5)) ∧
    setType (fun a b => a == b) ⟨[(1, 5)], [(2, 6)]⟩ 1 5 =
      some ⟨[(1, 5)], [(2, 6)]⟩ ∧
    setType (fun a b => a == b) ⟨[(1, 5)], [(2, 6)]⟩ 1 7 = none :=
  ⟨Or.inl (by decide),
   (setType_recorded_type_immutable (fun a b => a == b) ⟨[(1, 5)], [(2, 6)]⟩
      1 5 5 (Or.inl (by decide))).1 (by decide),
   (setType_recorded_type_immutable (fun a b => a == b) ⟨[(1, 5)], [(2, 6)]⟩
      1 7 5 (Or.inl (by decide))).2 (by decide)⟩

/-- Reading back a map assignment. -/
theorem assocSet_lookup {α β : Type} [DecidableEq α] [BEq α] [LawfulBEq α]
    (m : List (α × β)) (k : α) (v : β) :
    (assocSet m k v).lookup k = some v := by
  induction m with
  | nil => simp [assocSet]
  | cons p rest ih =>
    by_cases h : p.1 = k
    · simp [assocSet, h]
    · have hk : (k == p.1) = false := by
        simpa using fun hq => h hq.symm
      simp [assocSet, h, List.lookup, hk, ih]

/-- `sameTypes` inherits symmetry from `types.Identical`. -/
theorem sameTypes_symm (ident : Idx → Idx → Bool)
    (hsymm : ∀ a b, ident a b = true → ident b a = true) :
    ∀ xs ys, sameTypes ident xs ys = true → sameTypes ident ys xs = true := by
  intro xs
  induction xs with
  | nil => intro ys h; cases ys with
    | nil => exact h
    | cons y ys => simp [sameTypes] at h
  | cons x xs ih =>
    intro ys h
    cases ys with
    | nil => simp [sameTypes] at h
    | cons y ys =>
      simp only [sameTypes, Bool.and_eq_true] at h ⊢
      exact ⟨hsymm _ _ h.1, ih ys h.2⟩

/-- `sameTypes` inherits transitivity from `types.Identical`. -/
theorem sameTypes_trans (ident : Idx → Idx → Bool)
    (htrans : ∀ a b c, ident a b = true → ident b c = true → ident a c = true) :
    ∀ xs ys zs, sameTypes ident xs ys = true → sameTypes ident ys zs = true →
      sameTypes ident xs zs = true := by
  intro xs
  induction xs with
  | nil => intro ys zs h1 h2; cases ys with
    | nil => exact h2
    | cons y ys => simp [sameTypes] at h1
  | cons x xs ih =>
    intro ys zs h1 h2
    cases ys with
    | nil => simp [sameTypes] at h1
    | cons y ys =>
      cases zs with
      | nil => simp [sameTypes] at h2
      | cons z zs =>
        simp only [sameTypes, Bool.and_eq_true] at h1 h2 ⊢
        exact ⟨htrans _ _ _ h1.1 h2.1, ih ys zs h1.2 h2.2⟩

/-- `find?` only depends on the predicate's values on the list. -/
theorem find?_congr_local {α : Type} (p q : α → Bool) :
    ∀ l : List α, (∀ x ∈ l, p x = q x) → l.find? p = l.find? q := by
  intro l
  induction l with
  | nil => intro _; rfl
  | cons x xs ih =>
    intro h
    have hx := h x (by simp)
    by_cases hp : p x = true
    · simp [List.find?, hp, hx ▸ hp]
    · have hp' : p x = false := by simpa using hp
      have hq' : q x = false := hx ▸ hp'
      simp [List.find?, hp', hq']
      exact ih fun y hy => h y (by simp [hy])

/-- A failed scan of a prefix passes through to the suffix. -/
theorem find?_append_none_local {α : Type} (p : α → Bool) :
    ∀ l1 l2 : List α, l1.find? p = none →
      (l1 ++ l2).find? p = l2.find? p := by
  intro l1
  induction l1 with
  | nil => intro l2 _; rfl
  | cons x xs ih =>
    intro l2 h
    simp only [List.find?] at h ⊢
    cases hp : p x with
    | true => rw [hp] at h; simp at h
    | false =>
      rw [hp] at h
      simpa [hp] using ih l2 h

/-- The function path of the instantiation-cache idempotence: two requests
for the same generic function whose type-argument lists are pairwise
`Identical` produce one cache record, both call sites rewritten to the same
synthesized declaration identifier, the second request finding the first
record by the linear scan in append order.  `types.Identical` is assumed
symmetric and transitive, which it is. -/
theorem function_instantiation_cache_idempotent
    (ident : Idx → Idx → Bool)
    (instFn : TransState → String → List Idx → Except String (String × TransState))
    (st : TransState) (fn fn2 : GExpr) (args args2 : List GExpr)
    (key : String) (tl1 tl2 : List Idx) (tA1 tA2 : Bool)
    (hsymm : ∀ a b, ident a b = true → ident b a = true)
    (htrans : ∀ a b c, ident a b = true → ident b c = true → ident a c = true)
    (hsame : sameTypes ident tl1 tl2 = true)
    (hnoerr : ∀ e, instFn st key tl1 ≠ .error e) :
    ∃ d : String,
      (translateFunctionInstantiationF ident instFn st fn args key tl1 tA1).2 =
        instRewrite tA1 d args ∧
      (translateFunctionInstantiationF ident instFn
          (translateFunctionInstantiationF ident instFn st fn args key tl1 tA1).1
          fn2 args2 key tl2 tA2).2 = instRewrite tA2 d args2 ∧
      (translateFunctionInstantiationF ident instFn
          (translateFunctionInstantiationF ident instFn st fn args key tl1 tA1).1
          fn2 args2 key tl2 tA2).1 =
        (translateFunctionInstantiationF ident instFn st fn args key tl1 tA1).1 ∧
      (matchCount ident st key tl1 = 0 →
        matchCount ident
          (translateFunctionInstantiationF ident instFn st fn args key tl1 tA1).1
          key tl1 = 1) := by
  have hagree : ∀ l : List FuncInstRec,
      ∀ rec ∈ l, (sameTypes ident tl1 rec.types) = (sameTypes ident tl2 rec.types) := by
    intro l rec _
    by_cases h1 : sameTypes ident tl1 rec.types = true
    · have h2 : sameTypes ident tl2 rec.types = true :=
        sameTypes_trans ident htrans tl2 tl1 rec.types
          (sameTypes_symm ident hsymm tl1 tl2 hsame) h1
      rw [h1, h2]
    · have h2 : sameTypes ident tl2 rec.types ≠ true := fun hq =>
        h1 (sameTypes_trans ident htrans tl1 tl2 rec.types hsame hq)
      simp only [Bool.not_eq_true] at h1 h2
      rw [h1, h2]
  cases hfind : (funcInstsAt st key).find?
      (fun inst => sameTypes ident tl1 inst.types) with
  | some rec =>
    have e1 : translateFunctionInstantiationF ident instFn st fn args key tl1 tA1 =
        (st, instRewrite tA1 rec.decl args) := by
      simp only [translateFunctionInstantiationF, hfind]
    have hfind2 : (funcInstsAt st key).find?
        (fun inst => sameTypes ident tl2 inst.types) = some rec := by
      rw [← find?_congr_local _ _ _ (hagree (funcInstsAt st key))]
      exact hfind
    have e2 : translateFunctionInstantiationF ident instFn st fn2 args2 key tl2 tA2 =
        (st, instRewrite tA2 rec.decl args2) := by
      simp only [translateFunctionInstantiationF, hfind2]
    refine ⟨rec.decl, by rw [e1], by rw [e1, e2], by rw [e1, e2], ?_⟩
    intro hzero
    exfalso
    have hmem : rec ∈ funcInstsAt st key := List.mem_of_find?_eq_some hfind
    have hp : sameTypes ident tl1 rec.types = true := by
      have := List.find?_some (p := fun (inst : FuncInstRec) => sameTypes ident tl1 inst.types) hfind
      simpa using this
    have : rec ∈ (funcInstsAt st key).filter
        (fun rec => sameTypes ident tl1 rec.types) := List.mem_filter.mpr ⟨hmem, hp⟩
    have : 0 < matchCount ident st key tl1 := by
      rw [matchCount]
      exact List.length_pos.mpr fun hnil => by rw [hnil] at this; exact List.not_mem_nil _ this
    omega
  | none =>
    cases hinst : instFn st key tl1 with
    | error e => exact absurd hinst (hnoerr e)
    | ok pair =>
      obtain ⟨d, st'⟩ := pair
      have e1 : translateFunctionInstantiationF ident instFn st fn args key tl1 tA1 = ({ st' with instantiations := assocSet st'.instantiations key (funcInstsAt st key ++ [⟨tl1, d⟩]) }, instRewrite tA1 d args) := by
        simp only [translateFunctionInstantiationF, hfind, hinst]
      have hlook : funcInstsAt
          (translateFunctionInstantiationF ident instFn st fn args key tl1 tA1).1 key =
          funcInstsAt st key ++ [⟨tl1, d⟩] := by
        rw [e1]
        simp only [funcInstsAt, assocSet_lookup]
        rfl
      have hself : sameTypes ident tl1 tl1 = true :=
        sameTypes_trans ident htrans tl1 tl2 tl1 hsame
          (sameTypes_symm ident hsymm tl1 tl2 hsame)
      have hself2 : sameTypes ident tl2 tl1 = true :=
        sameTypes_symm ident hsymm tl1 tl2 hsame
      have hnone1 : (funcInstsAt st key).find?
          (fun inst => sameTypes ident tl2 inst.types) = none := by
        rw [← find?_congr_local _ _ _ (hagree (funcInstsAt st key))]
        exact hfind
      have hfind2 : (funcInstsAt st key ++ [FuncInstRec.mk tl1 d]).find?
          (fun inst => sameTypes ident tl2 inst.types) = some (FuncInstRec.mk tl1 d) := by
        rw [find?_append_none_local _ _ _ hnone1]
        simp [List.find?, hself2]
      have e2 : translateFunctionInstantiationF ident instFn
          (translateFunctionInstantiationF ident instFn st fn args key tl1 tA1).1
          fn2 args2 key tl2 tA2 =
          ((translateFunctionInstantiationF ident instFn st fn args key tl1 tA1).1,
            instRewrite tA2 d args2) := by
        conv_lhs => rw [translateFunctionInstantiationF]
        rw [hlook, hfind2]
      refine ⟨d, by rw [e1], by rw [e2], by rw [e2], ?_⟩
      intro hzero
      rw [matchCount, hlook, List.filter_append]
      have hz : ((funcInstsAt st key).filter
          (fun rec => sameTypes ident tl1 rec.types)).length = 0 := hzero
      simp [hself, hz]

/-- C9: if synthesizing an instantiation fails, `translateFunctionInstantiation`
records the error and leaves the call site unrewritten; with the error
recorded, `translateExpr`, `translateStmt`, `translateFuncDecl`,
`translateTypeSpec` and `translateValueSpec` return their inputs unchanged
(no further rewriting), a whole translation pass leaves the translator
state untouched, and the work-queue loop preserves the recorded error — so
the error is the result of AST rewriting; `rewriteFile` then produces no
output file, returning the error. -/
theorem synthesis_failure_aborts_file (ident : Idx → Idx → Bool)
    (instFn : TransState → String → List Idx → Except String (String × TransState))
    (instTypeFn : TransState → Nat → List Idx →
      Except String (String × Idx × TransState))
    (callKind : GExpr → CallKind) (recvHasTParams : GDecl → Bool) :
    (∀ st fn args key tl tA e,
      ((funcInstsAt st key).find? fun inst => sameTypes ident tl inst.types) = none →
      instFn st key tl = .error e →
      (translateFunctionInstantiationF ident instFn st fn args key tl tA).1.err = some e ∧
      (translateFunctionInstantiationF ident instFn st fn args key tl tA).2 = .call fn args) ∧
    (∀ f st e, st.err.isSome →
      translateExprF ident instFn instTypeFn callKind f st e = (st, e)) ∧
    (∀ f st s, st.err.isSome →
      translateStmtF ident instFn instTypeFn callKind f st s = (st, s)) ∧
    (∀ f st d, st.err.isSome →
      translateFuncDeclF ident instFn instTypeFn callKind f st d = (st, d)) ∧
    (∀ f st sp, st.err.isSome →
      translateTypeSpecP (translateExprF ident instFn instTypeFn callKind f) st sp = (st, sp)) ∧
    (∀ f st sp, st.err.isSome →
      translateValueSpecP (translateExprF ident instFn instTypeFn callKind f) st sp = (st, sp)) ∧
    (∀ f st decls, st.err.isSome →
      (translateDeclsF ident instFn instTypeFn callKind recvHasTParams f st decls).1 = st) ∧
    (∀ f qf m st decls, st.err = some m →
      (translateLoopF ident instFn instTypeFn callKind recvHasTParams f qf st decls).1.err =
        some m) ∧
    (∀ f qf fileDecls e,
      (rewriteASTF ident instFn instTypeFn callKind recvHasTParams f qf fileDecls).1.err = some e →
      rewriteFileF ident instFn instTypeFn callKind recvHasTParams f qf fileDecls =
        (none, some e)) := by
  have hexpr : ∀ f st e, st.err.isSome →
      translateExprF ident instFn instTypeFn callKind f st e = (st, e) := by
    intro f st e h
    cases f with
    | zero => rfl
    | succ f => simp [translateExprF, translateAstF, exprBody, h]
  have hstmt : ∀ f st s, st.err.isSome →
      translateStmtF ident instFn instTypeFn callKind f st s = (st, s) := by
    intro f st s h
    cases f with
    | zero => rfl
    | succ f => simp [translateStmtF, translateAstF, stmtBody, h]
  have hoptE : ∀ f st e, st.err.isSome →
      translateExprOptP (translateExprF ident instFn instTypeFn callKind f) st e = (st, e) := by
    intro f st e h
    cases e with
    | none => rfl
    | some e => simp [translateExprOptP, hexpr f st e h]
  have hlistE : ∀ f st es, st.err.isSome →
      translateExprListP (translateExprF ident instFn instTypeFn callKind f) st es = (st, es) := by
    intro f st es h
    induction es with
    | nil => rfl
    | cons e es ih => simp [translateExprListP, hexpr f st e h, ih]
  have hfd : ∀ f st d, st.err.isSome →
      translateFuncDeclF ident instFn instTypeFn callKind f st d = (st, d) := by
    intro f st d h
    simp [translateFuncDeclF, h]
  have hts : ∀ f st sp, st.err.isSome →
      translateTypeSpecP (translateExprF ident instFn instTypeFn callKind f) st sp =
        (st, sp) := by
    intro f st sp h
    cases sp with
    | typeSpec name tps typ => simp [translateTypeSpecP, hoptE f st typ h]
    | valueSpec names typ values => rfl
    | importSpec a b => rfl
  have hvs : ∀ f st sp, st.err.isSome →
      translateValueSpecP (translateExprF ident instFn instTypeFn callKind f) st sp =
        (st, sp) := by
    intro f st sp h
    cases sp with
    | typeSpec name tps typ => rfl
    | valueSpec names typ values =>
      simp [translateValueSpecP, hoptE f st typ h, hlistE f st values h]
    | importSpec a b => rfl
  have htsl : ∀ f st specs, st.err.isSome →
      translateTypeSpecsFilterP (translateExprF ident instFn instTypeFn callKind f)
        st specs = (st, (specs.filter fun sp => !isParameterizedTypeDeclF sp)) := by
    intro f st specs h
    induction specs with
    | nil => rfl
    | cons sp sps ih =>
      by_cases hp : isParameterizedTypeDeclF sp = true
      · simp [translateTypeSpecsFilterP, hp, List.filter, ih]
      · have hp' : isParameterizedTypeDeclF sp = false := by simpa using hp
        simp [translateTypeSpecsFilterP, hp', hts f st sp h, List.filter, ih]
  have hvsl : ∀ f st specs, st.err.isSome →
      translateSpecsP (translateValueSpecP
        (translateExprF ident instFn instTypeFn callKind f)) st specs = (st, specs) := by
    intro f st specs h
    induction specs with
    | nil => rfl
    | cons sp sps ih => simp [translateSpecsP, hvs f st sp h, ih]
  have hdecls : ∀ f st decls, st.err.isSome →
      (translateDeclsF ident instFn instTypeFn callKind recvHasTParams f st decls).1 =
        st := by
    intro f st decls h
    induction decls with
    | nil => rfl
    | cons d rest ih =>
      cases d with
      | funcDecl recv name tps params results body =>
        by_cases hp : isParameterizedFuncDeclF recvHasTParams
            (.funcDecl recv name tps params results body) = true
        · simp [translateDeclsF, hp, ih]
        · have hp' : isParameterizedFuncDeclF recvHasTParams
              (.funcDecl recv name tps params results body) = false := by simpa using hp
          simp [translateDeclsF, hp', hfd f st _ h, ih]
      | genDecl tok specs =>
        by_cases h1 : tok = "type"
        · by_cases h2 : (specs.filter fun sp => !isParameterizedTypeDeclF sp).isEmpty
          · simp [translateDeclsF, h1, htsl f st specs h, h2, ih]
          · simp [translateDeclsF, h1, htsl f st specs h, h2, ih]
        · by_cases h2 : tok = "const" ∨ tok = "var"
          · simp [translateDeclsF, h1, h2, hvsl f st specs h, ih]
          · by_cases h3 : tok = "ident"
            · simp [translateDeclsF, h1, h2, h3, ih]
            · simp [translateDeclsF, h1, h2, h3, ih]
      | badDecl => simp [translateDeclsF, ih]
  have hloop : ∀ f qf m st decls, st.err = some m →
      (translateLoopF ident instFn instTypeFn callKind recvHasTParams f qf st
        decls).1.err = some m := by
    intro f qf
    induction qf with
    | zero => intro m st decls h; simpa [translateLoopF] using h
    | succ qf ih =>
      intro m st decls h
      cases decls with
      | nil => simpa [translateLoopF] using h
      | cons d rest =>
        have hsome : st.err.isSome := by simp [h]
        have hst := hdecls f st (d :: rest) hsome
        simp only [translateLoopF, hst]
        exact ih m ({ st with newDecls := [] }) st.newDecls h
  refine ⟨?_, hexpr, hstmt, hfd, hts, hvs, hdecls, hloop, ?_⟩
  · intro st fn args key tl tA e hfind herr
    constructor <;> simp [translateFunctionInstantiationF, hfind, herr]
  · intro f qf fileDecls e h
    simp [rewriteFileF, h]

/-- Witness for C9: a one-function file whose single call is classified as
a generic function call and whose synthesizer fails. -/
theorem synthesis_failure_aborts_file_witness :
    (rewriteASTF (fun a b => a == b) (fun _ _ _ => .error "boom")
        (fun st _ _ => .ok ("T", 0, st)) (fun _ => .funcInst "F" [] true)
        (fun _ => false) 2 2
        [.funcDecl none "main" none none none
          [.exprStmt (some (.call (.ident "F") []))]]).1.err = some "boom" ∧
    rewriteFileF (fun a b => a == b) (fun _ _ _ => .error "boom")
        (fun st _ _ => .ok ("T", 0, st)) (fun _ => .funcInst "F" [] true)
        (fun _ => false) 2 2
        [.funcDecl none "main" none none none
          [.exprStmt (some (.call (.ident "F") []))]] = (none, some "boom") :=
  ⟨rfl,
   (synthesis_failure_aborts_file (fun a b => a == b) (fun _ _ _ => .error "boom")
      (fun st _ _ => .ok ("T", 0, st)) (fun _ => .funcInst "F" [] true)
      (fun _ => false)).2.2.2.2.2.2.2.2 2 2 _ "boom" rfl⟩

/-- The scan loop returns an in-range index whose position is a lower
bound for the whole list, given the invariant for the scanned prefix. -/
theorem firstInSrcAux_spec (cyc : List GObj) :
    ∀ (rest : List GObj) (i fst pos : Nat), cyc.drop i = rest →
      fst < cyc.length → (cyc.getD fst default).pos = pos →
      (∀ o ∈ cyc.take i, pos ≤ o.pos) →
      firstInSrcAux rest i fst pos < cyc.length ∧
      (∀ o ∈ cyc,
        (cyc.getD (firstInSrcAux rest i fst pos) default).pos ≤ o.pos) := by
  intro rest
  induction rest with
  | nil =>
    intro i fst pos hdrop hfst hpos htake
    have hlen : cyc.length ≤ i := by
      by_contra hlt
      push_neg at hlt
      have := List.drop_eq_nil_iff.mp hdrop
      omega
    have htake' : cyc.take i = cyc := List.take_of_length_le hlen
    refine ⟨hfst, ?_⟩
    intro o ho
    rw [firstInSrcAux, hpos]
    exact htake o (by rw [htake']; exact ho)
  | cons t ts ih =>
    intro i fst pos hdrop hfst hpos htake
    have hget : cyc[i]? = some t := by
      have : (cyc.drop i)[0]? = some t := by rw [hdrop]; simp
      rwa [List.getElem?_drop, Nat.add_zero] at this
    have hi : i < cyc.length := List.getElem?_eq_some.mp hget |>.1
    have hgetD : cyc.getD i default = t := by
      simp [List.getD, hget]
    have hdrop' : cyc.drop (i + 1) = ts := by
      have := congrArg List.tail hdrop
      simpa [List.tail_drop] using this
    have htakeS : cyc.take (i + 1) = cyc.take i ++ [t] := by
      rw [List.take_succ, hget]
      rfl
    rw [firstInSrcAux]
    by_cases hlt : t.pos < pos
    · simp only [hlt, if_true]
      refine ih (i + 1) i t.pos hdrop' hi (by rw [hgetD]) ?_
      intro o ho
      rw [htakeS] at ho
      rcases List.mem_append.mp ho with h | h
      · exact le_of_lt (lt_of_lt_of_le hlt (htake o h))
      · simp at h
        subst h
        omega
    · simp only [hlt, if_false]
      refine ih (i + 1) fst pos hdrop' hfst hpos ?_
      intro o ho
      rw [htakeS] at ho
      rcases List.mem_append.mp ho with h | h
      · exact htake o h
      · simp at h
        subst h
        omega

/-- `firstInSrc` returns an in-range index of minimal position. -/
theorem firstInSrc_spec (cyc : List GObj) (h : cyc ≠ []) :
    firstInSrc cyc < cyc.length ∧
    ∀ o ∈ cyc, (cyc.getD (firstInSrc cyc) default).pos ≤ o.pos := by
  cases cyc with
  | nil => exact absurd rfl h
  | cons p0 rest =>
    have hs := firstInSrcAux_spec (p0 :: rest) rest 1 0 p0.pos rfl (by simp) rfl ?_
    · simpa [firstInSrc] using hs
    · intro o ho
      simp [List.take_succ_cons] at ho
      subst ho
      exact le_refl _

/-- Closed form of the report loop: starting at index `i`, the `n`
"refers to" lines name the members at `(i+k) % length`, and the final line
names the member at `(i+n) % length`. -/
theorem cycleErrorLoop_closed (cyc : List GObj) :
    ∀ (n i : Nat), i < cyc.length →
      cycleErrorLoop n cyc i (cyc.getD i default) =
        ((List.range n).map fun k =>
          "\t" ++ (cyc.getD ((i + k) % cyc.length) default).name ++ " refers to") ++
        ["\t" ++ (cyc.getD ((i + n) % cyc.length) default).name] := by
  intro n
  induction n with
  | zero =>
    intro i hi
    simp [cycleErrorLoop, Nat.mod_eq_of_lt hi]
  | succ n ih =>
    intro i hi
    have hj : (if i + 1 ≥ cyc.length then 0 else i + 1) = (i + 1) % cyc.length := by
      by_cases h : i + 1 ≥ cyc.length
      · have he : i + 1 = cyc.length := by omega
        simp [h, he, Nat.mod_self]
      · have hlt : i + 1 < cyc.length := by omega
        simp [h, Nat.mod_eq_of_lt hlt]
    have hjlt : (i + 1) % cyc.length < cyc.length := Nat.mod_lt _ (by omega)
    have step : cycleErrorLoop (n + 1) cyc i (cyc.getD i default) =
        ("\t" ++ (cyc.getD i default).name ++ " refers to") ::
          cycleErrorLoop n cyc ((i + 1) % cyc.length)
            (cyc.getD ((i + 1) % cyc.length) default) := by
      rw [cycleErrorLoop]
      rw [hj]
    rw [step, ih ((i + 1) % cyc.length) hjlt]
    have hfun : ∀ k : Nat,
        ((i + 1) % cyc.length + k) % cyc.length = (i + (k + 1)) % cyc.length := by
      intro k
      rw [Nat.mod_add_mod]
      congr 1
      omega
    rw [List.range_succ_eq_map]
    simp only [List.map_cons, List.map_map, List.cons_append]
    congr 1
    · rw [Nat.add_zero, Nat.mod_eq_of_lt hi]
    · congr 1
      · apply List.map_congr_left
        intro k _
        simp only [Function.comp]
        rw [hfun k]
      · rw [hfun n]

/-- C8: a declaration-cycle report is anchored at the participant with the
smallest source position: the primary error names that anchor, one
"refers to" line is emitted per cycle member in cycle order starting from
the anchor and wrapping around, and the final name printed is the anchor
itself. -/
theorem cycle_error_anchored (cyc : List GObj) (h : cyc ≠ []) :
    firstInSrc cyc < cyc.length ∧
    (∀ o ∈ cyc, (cyc.getD (firstInSrc cyc) default).pos ≤ o.pos) ∧
    cycleError cyc =
      ("illegal cycle in declaration of " ++
          (cyc.getD (firstInSrc cyc) default).name) ::
        ((List.range cyc.length).map fun k =>
          "\t" ++ (cyc.getD ((firstInSrc cyc + k) % cyc.length) default).name ++
            " refers to") ++
        ["\t" ++ (cyc.getD (firstInSrc cyc) default).name] := by
  obtain ⟨h1, h2⟩ := firstInSrc_spec cyc h
  refine ⟨h1, h2, ?_⟩
  have hlen : cyc.length ≠ 0 := by
    cases cyc with
    | nil => exact absurd rfl h
    | cons a l => simp
  have := cycleErrorLoop_closed cyc cyc.length (firstInSrc cyc) h1
  rw [cycleError, this]
  have hlast : (firstInSrc cyc + cyc.length) % cyc.length = firstInSrc cyc := by
    rw [Nat.add_mod_right]
    exact Nat.mod_eq_of_lt h1
  rw [hlast]
  simp

/-- Witness for C8 on a two-element cycle whose second member is earliest
in source. -/
theorem cycle_error_anchored_witness :
    ([⟨"b", 5, .typeNameO false⟩, ⟨"a", 2, .typeNameO false⟩] : List GObj) ≠ [] ∧
    cycleError [⟨"b", 5, .typeNameO false⟩, ⟨"a", 2, .typeNameO false⟩] =
      ("illegal cycle in declaration of " ++
          (([⟨"b", 5, .typeNameO false⟩, ⟨"a", 2, .typeNameO false⟩] : List GObj).getD
            (firstInSrc [⟨"b", 5, .typeNameO false⟩, ⟨"a", 2, .typeNameO false⟩])
            default).name) ::
        ((List.range
            ([⟨"b", 5, .typeNameO false⟩, ⟨"a", 2, .typeNameO false⟩] : List GObj).length).map
          fun k =>
            "\t" ++
              (([⟨"b", 5, .typeNameO false⟩, ⟨"a", 2, .typeNameO false⟩] : List GObj).getD
                ((firstInSrc [⟨"b", 5, .typeNameO false⟩, ⟨"a", 2, .typeNameO false⟩] + k) %
                  ([⟨"b", 5, .typeNameO false⟩, ⟨"a", 2, .typeNameO false⟩] : List GObj).length)
                default).name ++
              " refers to") ++
        ["\t" ++
          (([⟨"b", 5, .typeNameO false⟩, ⟨"a", 2, .typeNameO false⟩] : List GObj).getD
            (firstInSrc [⟨"b", 5, .typeNameO false⟩, ⟨"a", 2, .typeNameO false⟩])
            default).name] :=
  ⟨by decide,
   (cycle_error_anchored [⟨"b", 5, .typeNameO false⟩, ⟨"a", 2, .typeNameO false⟩]
      (by decide)).2.2⟩

/-- `nval` counts exactly the value declarations. -/
theorem cycleCounts_nval (objMap : GObj → Option Bool) :
    ∀ cyc : List GObj,
      (cycleCounts objMap cyc).1 = (cyc.filter isValueDecl).length := by
  intro cyc
  induction cyc with
  | nil => rfl
  | cons o rest ih =>
    cases hk : o.kind with
    | constO => simp [cycleCounts, hk, List.filter, isValueDecl, ih]
    | varO => simp [cycleCounts, hk, List.filter, isValueDecl, ih]
    | typeNameO a =>
      by_cases ha : objAlias objMap o a <;>
        simp [cycleCounts, hk, List.filter, isValueDecl, ih, ha]
    | funcO => simp [cycleCounts, hk, List.filter, isValueDecl, ih]
    | contractO => simp [cycleCounts, hk, List.filter, isValueDecl, ih]

/-- `ndef` counts exactly the non-alias type definitions. -/
theorem cycleCounts_ndef (objMap : GObj → Option Bool) :
    ∀ cyc : List GObj,
      (cycleCounts objMap cyc).2 = (cyc.filter (isNonAliasTypeDef objMap)).length := by
  intro cyc
  induction cyc with
  | nil => rfl
  | cons o rest ih =>
    cases hk : o.kind with
    | constO => simp [cycleCounts, hk, List.filter, isNonAliasTypeDef, ih]
    | varO => simp [cycleCounts, hk, List.filter, isNonAliasTypeDef, ih]
    | typeNameO a =>
      by_cases ha : objAlias objMap o a <;>
        simp [cycleCounts, hk, List.filter, isNonAliasTypeDef, ih, ha]
    | funcO => simp [cycleCounts, hk, List.filter, isNonAliasTypeDef, ih]
    | contractO => simp [cycleCounts, hk, List.filter, isNonAliasTypeDef, ih]

/-- A filter keeps everything iff the predicate holds everywhere. -/
theorem filter_length_eq_iff_all {α : Type} (p : α → Bool) :
    ∀ l : List α, (l.filter p).length = l.length ↔ ∀ x ∈ l, p x = true := by
  intro l
  induction l with
  | nil => simp
  | cons x xs ih =>
    by_cases hp : p x = true
    · simp [List.filter, hp, ih]
    · have hp' : p x = false := by simpa using hp
      simp only [List.filter, hp']
      constructor
      · intro hlen
        exfalso
        have := List.length_filter_le p xs
        simp at hlen
        omega
      · intro hall
        exact absurd (hall x (by simp)) hp

/-- A filter keeps nothing iff the predicate holds nowhere. -/
theorem filter_length_zero_iff {α : Type} (p : α → Bool) :
    ∀ l : List α, (l.filter p).length = 0 ↔ ∀ x ∈ l, p x = false := by
  intro l
  constructor
  · intro h x hx
    by_contra hb
    have hpx : p x = true := by simpa using hb
    have hmem : x ∈ l.filter p := List.mem_filter.mpr ⟨hx, hpx⟩
    have hpos : 0 < (l.filter p).length :=
      List.length_pos.mpr fun hnil => by
        rw [hnil] at hmem; exact List.not_mem_nil _ hmem
    omega
  · intro h
    have : l.filter p = [] := List.filter_eq_nil_iff.mpr fun x hx => by simp [h x hx]
    simp [this]

/-- C4: the cycle classifier reports no error when every member is a
constant or variable (left to the initialization-order check), no error
when no member is a value declaration and some member is a non-alias type
definition, and in all other cases reports a cycle error and returns
true. -/
theorem cycle_classification (objMap : GObj → Option Bool)
    (objPath : List GObj) (start : Nat) :
    ((∀ o ∈ objPath.drop start, isValueDecl o = true) →
      cycleF objMap objPath start = (false, [])) ∧
    ((∀ o ∈ objPath.drop start, isValueDecl o = false) →
      (∃ o ∈ objPath.drop start, isNonAliasTypeDef objMap o = true) →
      cycleF objMap objPath start = (false, [])) ∧
    ((¬ ∀ o ∈ objPath.drop start, isValueDecl o = true) →
      (¬ ((∀ o ∈ objPath.drop start, isValueDecl o = false) ∧
        ∃ o ∈ objPath.drop start, isNonAliasTypeDef objMap o = true)) →
      (cycleF objMap objPath start).1 = true ∧
        (cycleF objMap objPath start).2 ≠ []) := by
  set cyc := objPath.drop start with hcyc
  have hnval := cycleCounts_nval objMap cyc
  have hndef := cycleCounts_ndef objMap cyc
  refine ⟨?_, ?_, ?_⟩
  · intro hall
    have : (cycleCounts objMap cyc).1 = cyc.length := by
      rw [hnval]
      exact (filter_length_eq_iff_all isValueDecl cyc).mpr hall
    simp [cycleF, ← hcyc, this]
  · intro hnone hex
    have h1 : (cycleCounts objMap cyc).1 = 0 := by
      rw [hnval]
      exact (filter_length_zero_iff isValueDecl cyc).mpr hnone
    have h2 : (cycleCounts objMap cyc).2 > 0 := by
      rw [hndef]
      obtain ⟨o, ho, hp⟩ := hex
      have : o ∈ cyc.filter (isNonAliasTypeDef objMap) :=
        List.mem_filter.mpr ⟨ho, hp⟩
      exact List.length_pos.mpr fun hnil => by
        rw [hnil] at this; exact List.not_mem_nil _ this
    by_cases hlen : (cycleCounts objMap cyc).1 = cyc.length
    · simp [cycleF, ← hcyc, hlen]
    · simp [cycleF, ← hcyc, hlen, h1, h2]
  · intro hnotall hnotdef
    have hne : cyc ≠ [] := by
      intro hnil
      exact hnotall fun o ho => absurd (hnil ▸ ho) (List.not_mem_nil o)
    have hlen : (cycleCounts objMap cyc).1 ≠ cyc.length := by
      rw [hnval]
      intro hcontra
      exact hnotall ((filter_length_eq_iff_all isValueDecl cyc).mp hcontra)
    have hsecond : ¬((cycleCounts objMap cyc).1 = 0 ∧ (cycleCounts objMap cyc).2 > 0) := by
      rintro ⟨hz, hpos⟩
      refine hnotdef ⟨(filter_length_zero_iff isValueDecl cyc).mp (by rw [← hnval]; exact hz), ?_⟩
      rw [hndef] at hpos
      have : cyc.filter (isNonAliasTypeDef objMap) ≠ [] := by
        intro hnil
        rw [hnil] at hpos
        simp at hpos
      obtain ⟨o, ho⟩ := List.exists_mem_of_ne_nil _ this
      exact ⟨o, (List.mem_filter.mp ho).1, (List.mem_filter.mp ho).2⟩
    constructor
    · simp only [cycleF, ← hcyc]
      rw [if_neg hlen, if_neg hsecond]
    · simp only [cycleF, ← hcyc]
      rw [if_neg hlen, if_neg hsecond]
      simp [cycleError]

/-- Witness for C4 on a mixed constant/type cycle, which must be
reported. -/
theorem cycle_classification_witness :
    (¬ ∀ o ∈ ([⟨"x", 1, .constO⟩, ⟨"T", 2, .typeNameO false⟩] : List GObj).drop 0,
      isValueDecl o = true) ∧
    (¬ ((∀ o ∈ ([⟨"x", 1, .constO⟩, ⟨"T", 2, .typeNameO false⟩] : List GObj).drop 0,
        isValueDecl o = false) ∧
      ∃ o ∈ ([⟨"x", 1, .constO⟩, ⟨"T", 2, .typeNameO false⟩] : List GObj).drop 0,
        isNonAliasTypeDef (fun _ => none) o = true)) ∧
    (cycleF (fun _ => none) [⟨"x", 1, .constO⟩, ⟨"T", 2, .typeNameO false⟩] 0).1 = true ∧
    (cycleF (fun _ => none) [⟨"x", 1, .constO⟩, ⟨"T", 2, .typeNameO false⟩] 0).2 ≠ [] :=
  ⟨by decide, by decide,
   (cycle_classification (fun _ => none)
      [⟨"x", 1, .constO⟩, ⟨"T", 2, .typeNameO false⟩] 0).2.2 (by decide) (by decide)⟩

/-- Reading back the cycle-detected assignment. -/
theorem getNamed_setInvalid (vs : VState) (id : Nat) (h : id < vs.named.length) :
    (getNamed (setInvalidNamed vs id) id).underlying = .invalid ∧
    (getNamed (setInvalidNamed vs id) id).info = .invalidI := by
  constructor <;> simp [getNamed, setInvalidNamed, List.getD, List.getElem?_set_self', h]

/-- C5: the infinite-expansion walk descends only through array element
types, struct field types and interface embedded types — pointer, slice,
map, channel and function shapes are accepted as valid without descent, so
a self-reference behind such an indirection is legal; and revisiting a
marked, not-yet-resolved named type of the current package is reported as a
cycle error, with the type's underlying replaced by the invalid
sentinel. -/
theorem valid_type_walk (fuel : Nat) (vs : VState) (path : List GObj) :
    (∀ e, validTypeF (fuel + 1) vs (.ptr e) path = some (vs, .validI)) ∧
    (∀ e, validTypeF (fuel + 1) vs (.slice e) path = some (vs, .validI)) ∧
    (∀ k e, validTypeF (fuel + 1) vs (.mapT k e) path = some (vs, .validI)) ∧
    (∀ e, validTypeF (fuel + 1) vs (.chan e) path = some (vs, .validI)) ∧
    (∀ parts, validTypeF (fuel + 1) vs (.sig parts) path = some (vs, .validI)) ∧
    (∀ e, validTypeF (fuel + 1) vs (.array e) path = validTypeF fuel vs e path) ∧
    (∀ fs, validTypeF (fuel + 1) vs (.struct fs) path =
      validFieldsD (validTypeF fuel) vs fs path) ∧
    (∀ es, validTypeF (fuel + 1) vs (.iface es) path =
      validFieldsD (validTypeF fuel) vs es path) ∧
    (∀ id i, (getNamed vs id).samePkg = true →
      isInvalidV (getNamed vs id).underlying = false →
      (getNamed vs id).info = .marked →
      (path.findIdx? fun tn => tn = (getNamed vs id).obj) = some i →
      id < vs.named.length →
      validTypeF (fuel + 1) vs (.named id) path =
        some ({ setInvalidNamed vs id with
            errors := vs.errors ++ cycleError (path.drop i) }, .invalidI) ∧
      (getNamed (setInvalidNamed vs id) id).underlying = .invalid ∧
      (getNamed (setInvalidNamed vs id) id).info = .invalidI ∧
      vs.errors.length < (vs.errors ++ cycleError (path.drop i)).length) := by
  refine ⟨fun e => rfl, fun e => rfl, fun k e => rfl, fun e => rfl,
    fun parts => rfl, fun e => rfl, fun fs => rfl, fun es => rfl, ?_⟩
  intro id i h1 h2 h3 h4 h5
  obtain ⟨g1, g2⟩ := getNamed_setInvalid vs id h5
  refine ⟨?_, g1, g2, by simp [cycleError]⟩
  simp only [validTypeF, h1, h2, h3, h4]
  rfl

/-- Witness for C5: a marked named type revisited along its own path. -/
theorem valid_type_walk_witness :
    (getNamed ⟨[⟨⟨"T", 3, .typeNameO false⟩, true, .struct [.named 0], .basic,
        .marked⟩], []⟩ 0).info = .marked ∧
    validTypeF 2
      ⟨[⟨⟨"T", 3, .typeNameO false⟩, true, .struct [.named 0], .basic,
        .marked⟩], []⟩ (.named 0) [⟨"T", 3, .typeNameO false⟩] =
      some ({ setInvalidNamed
          ⟨[⟨⟨"T", 3, .typeNameO false⟩, true, .struct [.named 0], .basic,
            .marked⟩], []⟩ 0 with
          errors := ([] : List String) ++
            cycleError (([⟨"T", 3, .typeNameO false⟩] : List GObj).drop 0) },
        .invalidI) :=
  ⟨by decide,
   ((valid_type_walk 1
      ⟨[⟨⟨"T", 3, .typeNameO false⟩, true, .struct [.named 0], .basic,
        .marked⟩], []⟩
      [⟨"T", 3, .typeNameO false⟩]).2.2.2.2.2.2.2.2 0 0 (by decide) (by decide)
      (by decide) (by decide) (by decide)).1⟩

/-- A map assignment leaves other keys unchanged. -/
theorem assocSet_lookup_ne {α β : Type} [DecidableEq α] [BEq α] [LawfulBEq α]
    (m : List (α × β)) (k k' : α) (v : β) (h : k ≠ k') :
    (assocSet m k v).lookup k' = m.lookup k' := by
  induction m with
  | nil =>
    have : (k' == k) = false := by simpa using fun hq => h hq.symm
    simp [assocSet, List.lookup, this]
  | cons p rest ih =>
    by_cases hp : p.1 = k
    · have hk : (k' == k) = false := by simpa using fun hq => h hq.symm
      have hk2 : (k' == p.1) = false := by
        rw [hp]; exact hk
      simp [assocSet, hp, List.lookup, hk, hk2]
    · simp only [assocSet, hp, if_false]
      cases hq : (k' == p.1) with
      | true => simp [List.lookup, hq]
      | false => simp [List.lookup, hq, ih]

/-- The loop collects at most one targ per argument. -/
theorem loop_targs_le (args : List CTy) :
    ∀ unused, (contractArgsLoop unused args).2.1.length ≤ args.length := by
  induction args with
  | nil => intro unused; simp [contractArgsLoop]
  | cons arg rest ih =>
    intro unused
    cases arg with
    | tparamT id =>
      cases hl : unused.lookup id with
      | some b =>
        cases b with
        | true =>
          simp only [contractArgsLoop, hl]
          have := ih (assocSet unused id false)
          simpa using Nat.succ_le_succ this
        | false =>
          simp only [contractArgsLoop, hl]
          have := ih unused
          simp
          omega
      | none =>
        simp only [contractArgsLoop, hl]
        have := ih unused
        simp
        omega
    | invalidT =>
      simp only [contractArgsLoop]
      have := ih unused
      simp
      omega
    | namedT s =>
      simp only [contractArgsLoop]
      have := ih unused
      simp
      omega
    | instT b ts =>
      simp only [contractArgsLoop]
      have := ih unused
      simp
      omega

/-- If the loop reported anything, some argument was not collected. -/
theorem loop_err_short (args : List CTy) :
    ∀ unused, (contractArgsLoop unused args).2.2 ≠ [] →
      (contractArgsLoop unused args).2.1.length < args.length := by
  induction args with
  | nil => intro unused h; simp [contractArgsLoop] at h
  | cons arg rest ih =>
    intro unused h
    cases arg with
    | tparamT id =>
      cases hl : unused.lookup id with
      | some b =>
        cases b with
        | true =>
          simp only [contractArgsLoop, hl] at h ⊢
          have := ih (assocSet unused id false) (by simpa using h)
          simpa using Nat.succ_lt_succ this
        | false =>
          simp only [contractArgsLoop, hl]
          have := loop_targs_le rest unused
          simp
          omega
      | none =>
        simp only [contractArgsLoop, hl]
        have := loop_targs_le rest unused
        simp
        omega
    | invalidT =>
      simp only [contractArgsLoop, List.length_cons] at h ⊢
      have := ih unused h
      omega
    | namedT s =>
      simp only [contractArgsLoop]
      have := loop_targs_le rest unused
      simp
      omega
    | instT b ts =>
      simp only [contractArgsLoop]
      have := loop_targs_le rest unused
      simp
      omega

/-- An argument naming an already-consumed parameter is reported. -/
theorem loop_err_of_used (args : List CTy) :
    ∀ (unused : List (Nat × Bool)) (id : Nat),
      0 < args.countP (isTParamId id) → unused.lookup id = some false →
      (contractArgsLoop unused args).2.2 ≠ [] := by
  induction args with
  | nil => intro unused id hc _; simp at hc
  | cons arg rest ih =>
    intro unused id hc hl
    by_cases hp : isTParamId id arg = true
    · cases arg with
      | tparamT j =>
        have hj : j = id := by simpa [isTParamId] using hp
        subst hj
        simp only [contractArgsLoop, hl]
        simp
      | invalidT => simp [isTParamId] at hp
      | namedT s => simp [isTParamId] at hp
      | instT b ts => simp [isTParamId] at hp
    · have hc' : 0 < rest.countP (isTParamId id) := by
        rw [List.countP_cons] at hc
        simp only [hp] at hc
        simpa using hc
      cases arg with
      | tparamT j =>
        have hj : j ≠ id := by
          intro hq; exact hp (by simp [isTParamId, hq])
        cases hb : unused.lookup j with
        | some b =>
          cases b with
          | true =>
            simp only [contractArgsLoop, hb]
            have hl' : (assocSet unused j false).lookup id = some false := by
              rw [assocSet_lookup_ne unused j id false hj]
              exact hl
            simpa using ih (assocSet unused j false) id hc' hl'
          | false => simp [contractArgsLoop, hb]
        | none => simp [contractArgsLoop, hb]
      | invalidT =>
        simp only [contractArgsLoop]
        exact ih unused id hc' hl
      | namedT s => simp [contractArgsLoop]
      | instT b ts => simp [contractArgsLoop]

/-- A parameter supplied as an argument twice is reported. -/
theorem loop_err_of_dup (args : List CTy) :
    ∀ (unused : List (Nat × Bool)) (id : Nat) (b : Bool),
      2 ≤ args.countP (isTParamId id) → unused.lookup id = some b →
      (contractArgsLoop unused args).2.2 ≠ [] := by
  induction args with
  | nil => intro unused id b hc _; simp at hc
  | cons arg rest ih =>
    intro unused id b hc hl
    by_cases hp : isTParamId id arg = true
    · cases arg with
      | tparamT j =>
        have hj : j = id := by simpa [isTParamId] using hp
        subst hj
        have hc' : 0 < rest.countP (isTParamId j) := by
          rw [List.countP_cons] at hc
          simp only [hp, if_true] at hc
          omega
        cases b with
        | true =>
          simp only [contractArgsLoop, hl]
          have hl' : (assocSet unused j false).lookup j = some false :=
            assocSet_lookup (m := unused) (k := j) (v := false)
          simpa using loop_err_of_used rest (assocSet unused j false) j hc' hl'
        | false =>
          simp [contractArgsLoop, hl]
      | invalidT => simp [isTParamId] at hp
      | namedT s => simp [isTParamId] at hp
      | instT bd ts => simp [isTParamId] at hp
    · have hc' : 2 ≤ rest.countP (isTParamId id) := by
        rw [List.countP_cons] at hc
        simp only [hp] at hc
        simpa using hc
      cases arg with
      | tparamT j =>
        have hj : j ≠ id := by
          intro hq; exact hp (by simp [isTParamId, hq])
        cases hb : unused.lookup j with
        | some bb =>
          cases bb with
          | true =>
            simp only [contractArgsLoop, hb]
            have hl' : (assocSet unused j false).lookup id = some b := by
              rw [assocSet_lookup_ne unused j id false hj]
              exact hl
            simpa using ih (assocSet unused j false) id b hc' hl'
          | false => simp [contractArgsLoop, hb]
        | none => simp [contractArgsLoop, hb]
      | invalidT =>
        simp only [contractArgsLoop]
        exact ih unused id b hc' hl
      | namedT s => simp [contractArgsLoop]
      | instT bd ts => simp [contractArgsLoop]

/-- A non-parameter argument is reported. -/
theorem loop_err_of_nonparam (args : List CTy) :
    ∀ (unused : List (Nat × Bool)) (a : CTy), a ∈ args →
      isNonParamArg a = true → (contractArgsLoop unused args).2.2 ≠ [] := by
  induction args with
  | nil => intro unused a ha _; exact absurd ha (List.not_mem_nil a)
  | cons arg rest ih =>
    intro unused a ha hnp
    rcases List.mem_cons.mp ha with h | h
    · subst h
      cases a with
      | tparamT j => simp [isNonParamArg] at hnp
      | invalidT => simp [isNonParamArg] at hnp
      | namedT s => simp [contractArgsLoop]
      | instT bd ts => simp [contractArgsLoop]
    · cases arg with
      | tparamT j =>
        cases hb : unused.lookup j with
        | some bb =>
          cases bb with
          | true =>
            simp only [contractArgsLoop, hb]
            simpa using ih (assocSet unused j false) a h hnp
          | false => simp [contractArgsLoop, hb]
        | none => simp [contractArgsLoop, hb]
      | invalidT =>
        simp only [contractArgsLoop]
        exact ih unused a h hnp
      | namedT s => simp [contractArgsLoop]
      | instT bd ts => simp [contractArgsLoop]

/-- Distinct, still-unused parameters are all consumed without
diagnostics. -/
theorem loop_success (ids : List Nat) :
    ∀ (unused : List (Nat × Bool)), ids.Nodup →
      (∀ id ∈ ids, unused.lookup id = some true) →
      (contractArgsLoop unused (ids.map CTy.tparamT)).2.1 = ids.map CTy.tparamT ∧
      (contractArgsLoop unused (ids.map CTy.tparamT)).2.2 = [] := by
  induction ids with
  | nil => intro unused _ _; exact ⟨rfl, rfl⟩
  | cons id ids ih =>
    intro unused hnd hall
    have hl : unused.lookup id = some true := hall id (by simp)
    have hnd' : ids.Nodup := hnd.of_cons
    have hall' : ∀ j ∈ ids, (assocSet unused id false).lookup j = some true := by
      intro j hj
      have hnn : id ≠ j := by
        intro hq
        subst hq
        exact (List.nodup_cons.mp hnd).1 hj
      rw [assocSet_lookup_ne unused id j false hnn]
      exact hall j (by simp [hj])
    obtain ⟨g1, g2⟩ := ih (assocSet unused id false) hnd' hall'
    simp [List.map_cons, contractArgsLoop, hl, g1, g2]

/-- C7: a contract argument list of the wrong arity, one using a parameter
twice, or one containing a non-parameter argument is reported with a
diagnostic and not treated as valid; a list of distinct, still-unused
incoming type parameters of the right arity is valid, and each argument
parameter's bound is set to the contract's positionally corresponding
bound instantiated with the argument list. -/
theorem contract_arguments_checked (obj : GContract) (args : List CTy)
    (unused : List (Nat × Bool)) :
    (args.length ≠ obj.tparams →
      (contractInstArgs obj args unused).valid = false ∧
      (contractInstArgs obj args unused).errors ≠ []) ∧
    (∀ id b, 2 ≤ args.countP (isTParamId id) → unused.lookup id = some b →
      (contractInstArgs obj args unused).valid = false ∧
      (contractInstArgs obj args unused).errors ≠ []) ∧
    (∀ a ∈ args, isNonParamArg a = true →
      (contractInstArgs obj args unused).valid = false ∧
      (contractInstArgs obj args unused).errors ≠ []) ∧
    (∀ ids : List Nat, args = ids.map CTy.tparamT → ids.Nodup →
      (∀ id ∈ ids, unused.lookup id = some true) →
      args.length = obj.tparams →
      (contractInstArgs obj args unused).valid = true ∧
      (contractInstArgs obj args unused).errors = [] ∧
      (contractInstArgs obj args unused).targs = args ∧
      (contractInstArgs obj args unused).assigns =
        (obj.bounds.zip args).map fun p => (tparamIdOf p.2, CTy.instT p.1 args)) := by
  have arity : args.length ≠ obj.tparams →
      (contractInstArgs obj args unused).valid = false ∧
      (contractInstArgs obj args unused).errors ≠ [] := by
    intro h
    constructor <;> simp [contractInstArgs, h]
  have viaLoop : (contractArgsLoop unused args).2.2 ≠ [] →
      (contractInstArgs obj args unused).valid = false ∧
      (contractInstArgs obj args unused).errors ≠ [] := by
    intro herr
    by_cases hlen : args.length ≠ obj.tparams
    · exact arity hlen
    · have hshort := loop_err_short args unused herr
      have hne : (contractArgsLoop unused args).2.1.length ≠ args.length := by
        omega
      constructor <;> simp [contractInstArgs, hlen, hne, herr]
  refine ⟨arity, ?_, ?_, ?_⟩
  · intro id b hc hl
    exact viaLoop (loop_err_of_dup args unused id b hc hl)
  · intro a ha hnp
    exact viaLoop (loop_err_of_nonparam args unused a ha hnp)
  · intro ids hmap hnd hall hlen
    subst hmap
    obtain ⟨g1, g2⟩ := loop_success ids unused hnd hall
    have hne : ¬((List.map CTy.tparamT ids).length ≠ obj.tparams) := by
      simpa using hlen
    have hlen2 : ¬((contractArgsLoop unused (ids.map CTy.tparamT)).2.1.length ≠
        (ids.map CTy.tparamT).length) := by
      rw [g1]
      simp
    have hl3 : ids.length = obj.tparams := by simpa using hlen
    refine ⟨?_, ?_, ?_, ?_⟩ <;>
      simp [contractInstArgs, hne, hlen2, g1, g2, hl3]

/-- Witness for C7: a two-parameter contract instantiated with the same
parameter twice. -/
theorem contract_arguments_checked_witness :
    2 ≤ ([CTy.tparamT 0, CTy.tparamT 0].countP (isTParamId 0)) ∧
    (contractInstArgs ⟨2, [.namedT "B1", .namedT "B2"]⟩
      [CTy.tparamT 0, CTy.tparamT 0] [(0, true), (1, true)]).valid = false ∧
    (contractInstArgs ⟨2, [.namedT "B1", .namedT "B2"]⟩
      [CTy.tparamT 0, CTy.tparamT 0] [(0, true), (1, true)]).errors ≠ [] :=
  ⟨by decide,
   ((contract_arguments_checked ⟨2, [.namedT "B1", .namedT "B2"]⟩
      [CTy.tparamT 0, CTy.tparamT 0] [(0, true), (1, true)]).2.1 0 true
      (by decide) (by decide)).1,
   ((contract_arguments_checked ⟨2, [.namedT "B1", .namedT "B2"]⟩
      [CTy.tparamT 0, CTy.tparamT 0] [(0, true), (1, true)]).2.1 0 true
      (by decide) (by decide)).2⟩

/-- The named-type path of the instantiation-cache idempotence: two requests
for the same generic named type whose type-argument lists are pairwise
`Identical` produce one `typeInstantiations` record, both call sites
replaced by the same synthesized type-declaration identifier, the second
request finding the first record by the linear scan in append order. -/
theorem translate_type_instantiation_idempotent
    (ident : Idx → Idx → Bool)
    (instTypeFn : TransState → Nat → List Idx →
      Except String (String × Idx × TransState))
    (st : TransState) (fn fn2 : GExpr) (args args2 : List GExpr)
    (key : Nat) (tl1 tl2 : List Idx)
    (hsymm : ∀ a b, ident a b = true → ident b a = true)
    (htrans : ∀ a b c, ident a b = true → ident b c = true → ident a c = true)
    (hsame : sameTypes ident tl1 tl2 = true)
    (hnoerr : ∀ e, instTypeFn st key tl1 ≠ .error e) :
    TypeInstIdem ident instTypeFn st fn fn2 args args2 key tl1 tl2 := by
  have hagree : ∀ l : List TypeInstDeclRec,
      ∀ rec ∈ l, (sameTypes ident tl1 rec.types) = (sameTypes ident tl2 rec.types) := by
    intro l rec _
    by_cases h1 : sameTypes ident tl1 rec.types = true
    · have h2 : sameTypes ident tl2 rec.types = true :=
        sameTypes_trans ident htrans tl2 tl1 rec.types
          (sameTypes_symm ident hsymm tl1 tl2 hsame) h1
      rw [h1, h2]
    · have h2 : sameTypes ident tl2 rec.types ≠ true := fun hq =>
        h1 (sameTypes_trans ident htrans tl1 tl2 rec.types hsame hq)
      simp only [Bool.not_eq_true] at h1 h2
      rw [h1, h2]
  cases hfind : (typeInstsAt st key).find?
      (fun inst => sameTypes ident tl1 inst.types) with
  | some rec =>
    have e1 : translateTypeInstantiationF ident instTypeFn st fn args key tl1 =
        (st, .ident rec.decl) := by
      simp only [translateTypeInstantiationF]
      rw [show (st.typeInsts.lookup key).getD [] = typeInstsAt st key from rfl, hfind]
    have hfind2 : (typeInstsAt st key).find?
        (fun inst => sameTypes ident tl2 inst.types) = some rec := by
      rw [← find?_congr_local _ _ _ (hagree (typeInstsAt st key))]
      exact hfind
    have e2 : translateTypeInstantiationF ident instTypeFn st fn2 args2 key tl2 =
        (st, .ident rec.decl) := by
      simp only [translateTypeInstantiationF]
      rw [show (st.typeInsts.lookup key).getD [] = typeInstsAt st key from rfl, hfind2]
    refine ⟨rec.decl, by rw [e1], by rw [e1, e2], by rw [e1, e2], ?_⟩
    intro hzero
    exfalso
    have hmem : rec ∈ typeInstsAt st key := List.mem_of_find?_eq_some hfind
    have hp : sameTypes ident tl1 rec.types = true := by
      have := List.find?_some
        (p := fun (inst : TypeInstDeclRec) => sameTypes ident tl1 inst.types) hfind
      simpa using this
    have hmf : rec ∈ (typeInstsAt st key).filter
        (fun rec => sameTypes ident tl1 rec.types) := List.mem_filter.mpr ⟨hmem, hp⟩
    have hpos : 0 < typeMatchCount ident st key tl1 := by
      rw [typeMatchCount]
      exact List.length_pos.mpr fun hnil => by
        rw [hnil] at hmf; exact List.not_mem_nil _ hmf
    omega
  | none =>
    cases hinst : instTypeFn st key tl1 with
    | error e => exact absurd hinst (hnoerr e)
    | ok trip =>
      obtain ⟨d, ty, st'⟩ := trip
      have e1 : translateTypeInstantiationF ident instTypeFn st fn args key tl1 = ({ st' with typeInsts := assocSet st'.typeInsts key (typeInstsAt st key ++ [⟨tl1, d, ty⟩]) }, .ident d) := by
        simp only [translateTypeInstantiationF]
        rw [show (st.typeInsts.lookup key).getD [] = typeInstsAt st key from rfl,
          hfind, hinst]
      have hlook : typeInstsAt
          (translateTypeInstantiationF ident instTypeFn st fn args key tl1).1 key =
          typeInstsAt st key ++ [⟨tl1, d, ty⟩] := by
        rw [e1]
        simp only [typeInstsAt, assocSet_lookup]
        rfl
      have hself : sameTypes ident tl1 tl1 = true :=
        sameTypes_trans ident htrans tl1 tl2 tl1 hsame
          (sameTypes_symm ident hsymm tl1 tl2 hsame)
      have hself2 : sameTypes ident tl2 tl1 = true :=
        sameTypes_symm ident hsymm tl1 tl2 hsame
      have hnone1 : (typeInstsAt st key).find?
          (fun inst => sameTypes ident tl2 inst.types) = none := by
        rw [← find?_congr_local _ _ _ (hagree (typeInstsAt st key))]
        exact hfind
      have hfind2 : (typeInstsAt st key ++ [TypeInstDeclRec.mk tl1 d ty]).find?
          (fun inst => sameTypes ident tl2 inst.types) =
            some (TypeInstDeclRec.mk tl1 d ty) := by
        rw [find?_append_none_local _ _ _ hnone1]
        simp [List.find?, hself2]
      have e2 : translateTypeInstantiationF ident instTypeFn
          (translateTypeInstantiationF ident instTypeFn st fn args key tl1).1
          fn2 args2 key tl2 =
          ((translateTypeInstantiationF ident instTypeFn st fn args key tl1).1,
            .ident d) := by
        conv_lhs => rw [translateTypeInstantiationF]
        rw [show ((translateTypeInstantiationF ident instTypeFn st fn args key
            tl1).1.typeInsts.lookup key).getD [] =
            typeInstsAt (translateTypeInstantiationF ident instTypeFn st fn args
              key tl1).1 key from rfl, hlook, hfind2]
      refine ⟨d, by rw [e1], by rw [e2], by rw [e2], ?_⟩
      intro hzero
      rw [typeMatchCount, hlook, List.filter_append]
      have hz : ((typeInstsAt st key).filter
          (fun rec => sameTypes ident tl1 rec.types)).length = 0 := hzero
      simp [hself, hz]

/-- C2: for every generic function or named type and every two instantiation
requests whose type-argument lists are pairwise `Identical`, the
instantiation cache holds exactly one record for that (entity,
argument-list) key: the second request finds the first record by the linear
scan in append order and rewrites its call site to the same synthesized
declaration identifier instead of synthesizing a new declaration.  Function
entities go through `translateFunctionInstantiation` and the
`instantiations` cache; named types go through `translateTypeInstantiation`
and the `typeInstantiations` cache.  `types.Identical` is assumed symmetric
and transitive, which it is. -/
theorem instantiation_cache_idempotent (ident : Idx → Idx → Bool)
    (instFn : TransState → String → List Idx → Except String (String × TransState))
    (instTypeFn : TransState → Nat → List Idx →
      Except String (String × Idx × TransState))
    (hsymm : ∀ a b, ident a b = true → ident b a = true)
    (htrans : ∀ a b c, ident a b = true → ident b c = true → ident a c = true) :
    (∀ (st : TransState) (fn fn2 : GExpr) (args args2 : List GExpr)
      (key : String) (tl1 tl2 : List Idx) (tA1 tA2 : Bool),
      sameTypes ident tl1 tl2 = true →
      (∀ e, instFn st key tl1 ≠ .error e) →
      FuncInstIdem ident instFn st fn fn2 args args2 key tl1 tl2 tA1 tA2) ∧
    (∀ (st : TransState) (fn fn2 : GExpr) (args args2 : List GExpr)
      (key : Nat) (tl1 tl2 : List Idx),
      sameTypes ident tl1 tl2 = true →
      (∀ e, instTypeFn st key tl1 ≠ .error e) →
      TypeInstIdem ident instTypeFn st fn fn2 args args2 key tl1 tl2) :=
  ⟨fun st fn fn2 args args2 key tl1 tl2 tA1 tA2 hsame hnoerr =>
    function_instantiation_cache_idempotent ident instFn st fn fn2 args args2
      key tl1 tl2 tA1 tA2 hsymm htrans hsame hnoerr,
   fun st fn fn2 args args2 key tl1 tl2 hsame hnoerr =>
    translate_type_instantiation_idempotent ident instTypeFn st fn fn2 args
      args2 key tl1 tl2 hsymm htrans hsame hnoerr⟩

/-- Witness for C2: the same instantiation requested twice, for a generic
function and for a generic named type, each from an empty cache with an
always-succeeding synthesizer. -/
theorem instantiation_cache_idempotent_witness :
    sameTypes (fun a b => a == b) [3] [3] = true ∧
    FuncInstIdem (fun a b => a == b) (fun st _ _ => .ok ("inst1", st))
      ⟨[], [], [], none⟩ (.ident "F") (.ident "F") [] [] "F" [3] [3]
      true true ∧
    TypeInstIdem (fun a b => a == b) (fun st _ _ => .ok ("List_int", 0, st))
      ⟨[], [], [], none⟩ (.ident "List") (.ident "List") [] [] 7 [3] [3] :=
  ⟨by decide,
   (instantiation_cache_idempotent (fun a b => a == b)
      (fun st _ _ => .ok ("inst1", st)) (fun st _ _ => .ok ("List_int", 0, st))
      (by intro a b h; rw [beq_iff_eq] at h; subst h; simp)
      (by intro a b c h1 h2; rw [beq_iff_eq] at h1 h2; subst h1; subst h2; simp)).1
     ⟨[], [], [], none⟩ (.ident "F") (.ident "F") [] [] "F" [3] [3] true true
     (by decide) (fun e h => Except.noConfusion h),
   (instantiation_cache_idempotent (fun a b => a == b)
      (fun st _ _ => .ok ("inst1", st)) (fun st _ _ => .ok ("List_int", 0, st))
      (by intro a b h; rw [beq_iff_eq] at h; subst h; simp)
      (by intro a b c h1 h2; rw [beq_iff_eq] at h1 h2; subst h1; subst h2; simp)).2
     ⟨[], [], [], none⟩ (.ident "List") (.ident "List") [] [] 7 [3] [3]
     (by decide) (fun e h => Except.noConfusion h)⟩
